import Mathlib

/-!
Verification development for the raindrop-summarizer repository.

The TypeScript sources are shallowly embedded: strings are lists of
characters (`Str`), each TS function that the claims touch becomes a
total Lean function over that representation, fallible operations are
parameterised by an `Except`-valued outcome for the underlying effect,
and the concurrent batch dispatcher is modelled as a fold whose per-item
step mirrors the per-item `try/catch` structure of the code.
-/

/-- Characters of a JS string, in order. All embedded string functions
work on this representation. -/
abbrev Str := List Char

/-- Coerce a Lean string literal to the embedded representation. -/
def str (s : String) : Str := s.toList

/-- Lowercasing, as `String.prototype.toLowerCase` acts on ASCII. -/
def lowerStr (s : Str) : Str := s.map Char.toLower

/-- JS `String.prototype.includes(pat)`: `pat` occurs contiguously in `s`. -/
def containsSub (pat : Str) : Str → Bool
  | [] => pat.isEmpty
  | c :: t => pat.isPrefixOf (c :: t) || containsSub pat t

/-! ## SummarizerGateway error classification
Embedding of `PythonIntegration.parseErrorMessage`
(src/src/video/python-integration.ts): an ordered if-chain of substring
tests against the raw stderr text, first match wins, with a
first-line-or-unknown fallback. -/

/-- Category message for a missing Google Cloud project id. -/
def msgProject : Str := str "Google Cloud Project ID not set or invalid"

/-- Category message for an authentication failure. -/
def msgAuth : Str :=
  str "Google Cloud authentication failed. Run: gcloud auth application-default login"

/-- Category message for quota or rate-limit exhaustion. -/
def msgQuota : Str := str "API quota exceeded or rate limit reached. Please try again later"

/-- Category message for an inaccessible video. -/
def msgVideo : Str := str "Video not found or not accessible"

/-- Fallback message when the error text is empty. -/
def msgUnknown : Str := str "Unknown error occurred"

/-- `PythonIntegration.parseErrorMessage(errorOutput)`: classify the raw
error text by ordered substring matching; the fallback returns the first
line of the raw text (`errorOutput.split("\n")[0]`), or the unknown
message when that line is empty. -/
def parseErrorMessage (errorOutput : Str) : Str :=
  if containsSub (str "GOOGLE_CLOUD_PROJECT_ID") errorOutput then msgProject
  else if containsSub (str "authentication") errorOutput then msgAuth
  else if containsSub (str "quota") errorOutput || containsSub (str "rate limit") errorOutput then
    msgQuota
  else if containsSub (str "video") errorOutput && containsSub (str "not found") errorOutput then
    msgVideo
  else
    let firstLine := errorOutput.takeWhile (fun c => decide (c ≠ '\n'))
    if firstLine.isEmpty then msgUnknown else firstLine

/-! ## ProcessedRecordStore
Embedding of `Database` (src/src/db/database.ts). The SQLite table
`processed_videos` with its `video_id UNIQUE` constraint is modelled as a
list of records, `INSERT OR REPLACE` as deletion of the conflicting row
followed by insertion. The read/lookup methods wrap every statement in
`try/catch`; the statement outcome is passed in as an `Except` value, the
`.error` case standing for a thrown SQLite exception. -/

/-- One row of `processed_videos` (the fields `Database.markVideoProcessed`
writes; the autoincrement id and `created_at` default are not observable
through the embedded operations and are omitted). -/
structure PRecord where
  video_id : Str
  url : Str
  title : Str
  summary_file_path : Str
  processed_at : Str
  raindrop_bookmark_id : Str
deriving DecidableEq

/-- `Database.markVideoProcessed`: `INSERT OR REPLACE` keyed on the unique
`video_id` column — the conflicting row (if any) is removed and the new
row inserted (held at the head, standing for the freshest rowid). -/
def markVideoProcessed (r : PRecord) (s : List PRecord) : List PRecord :=
  r :: s.filter (fun x => decide (x.video_id ≠ r.video_id))

/-- `Database.deleteProcessedVideo`: `DELETE FROM processed_videos WHERE
video_id = ?` (the rows removed; the boolean result is modelled by
`deleteProcessedVideoOp`). -/
def deleteProcessedVideo (vid : Str) (s : List PRecord) : List PRecord :=
  s.filter (fun x => decide (x.video_id ≠ vid))

/-- States of the store reachable by the operations the pipeline performs:
the freshly created empty table, upserts, and administrative deletes. -/
inductive StoreReachable : List PRecord → Prop
  | init : StoreReachable []
  | upsert (r : PRecord) (s : List PRecord) :
      StoreReachable s → StoreReachable (markVideoProcessed r s)
  | del (vid : Str) (s : List PRecord) :
      StoreReachable s → StoreReachable (deleteProcessedVideo vid s)

/-- `Database.isVideoProcessed`: runs a COUNT query and returns whether the
count is a positive number; a thrown statement error is caught and
defaults to `false`. The argument is the outcome of the COUNT statement:
`.ok (some (some n))` a row whose `count` field is the number `n`,
`.ok (some none)` a row without a numeric `count`, `.ok none` no row,
`.error` a thrown SQLite error. -/
def isVideoProcessedOp (raw : Except Str (Option (Option Int))) : Bool :=
  match raw with
  | .ok (some (some count)) => decide (0 < count)
  | .ok _ => false
  | .error _ => false

/-- `Database.isBookmarkProcessed`: same COUNT shape keyed on
`raindrop_bookmark_id`, same catch-to-false behaviour. -/
def isBookmarkProcessedOp (raw : Except Str (Option (Option Int))) : Bool :=
  match raw with
  | .ok (some (some count)) => decide (0 < count)
  | .ok _ => false
  | .error _ => false

/-- `Database.getProcessedVideo`: SELECT by `video_id`; no row gives
`null`, a thrown statement error is caught and gives `null`. -/
def getProcessedVideoOp (raw : Except Str (Option PRecord)) : Option PRecord :=
  match raw with
  | .ok r => r
  | .error _ => none

/-- `Database.deleteProcessedVideo` result: `changes > 0`, with a thrown
statement error caught and returned as `false`. -/
def deleteProcessedVideoOp (raw : Except Str Nat) : Bool :=
  match raw with
  | .ok changes => decide (0 < changes)
  | .error _ => false

/-- The three counters `Database.getStats` reports. -/
structure DbStats where
  totalProcessed : Int
  today : Int
  thisWeek : Int
deriving DecidableEq

/-- `Database.getStats`: three COUNT queries inside one `try`; each
`.ok none` (a row without a numeric `count`) contributes 0, and any
thrown statement error is caught and yields the all-zero triple. -/
def getStatsOp (total today week : Except Str (Option Int)) : DbStats :=
  match total, today, week with
  | .ok a, .ok b, .ok c => ⟨a.getD 0, b.getD 0, c.getD 0⟩
  | _, _, _ => ⟨0, 0, 0⟩

/-- `Database.markVideoProcessed` error path: a thrown statement error is
re-raised as a `DatabaseError` (the write failure is surfaced, not
swallowed). -/
def markVideoProcessedOp (raw : Except Str Unit) : Except Str Unit :=
  match raw with
  | .ok _ => .ok ()
  | .error e => .error (str "Failed to mark video as processed: " ++ e)

/-- `Database.getProcessedVideos` error path: a thrown statement error is
re-raised as a `DatabaseError`. -/
def getProcessedVideosOp (raw : Except Str (List PRecord)) : Except Str (List PRecord) :=
  match raw with
  | .ok rs => .ok rs
  | .error e => .error (str "Failed to get processed videos: " ++ e)

/-! ## RemoteBookmarkClient pagination
Embedding of `RaindropAPI.fetchBookmarks` (src/src/api/raindrop.ts). The
source service is modelled as the finite sequence of pages it returns, a
fetch past the end returning the empty page. `fetchAux` mirrors the
`while (hasMore && (!maxItems || allBookmarks.length < maxItems))` loop
and additionally counts page fetches and inter-page rate-limit delays.
JS truthiness makes `maxItems = 0` behave as no limit (`!maxItems`), which
`budgetLeft`/`trimMax` reproduce. -/

/-- The fixed page size `DEFAULT_PER_PAGE` (the Raindrop API maximum). -/
def perPage : Nat := 50

/-- The loop guard `!maxItems || allBookmarks.length < maxItems`
(`maxItems = some 0` is JS-falsy, hence no limit). -/
def budgetLeft (maxItems : Option Nat) (len : Nat) : Bool :=
  match maxItems with
  | none => true
  | some 0 => true
  | some m => decide (len < m)

/-- The final trim `if (maxItems && allBookmarks.length > maxItems) slice`. -/
def trimMax (maxItems : Option Nat) (l : List α) : List α :=
  match maxItems with
  | none => l
  | some 0 => l
  | some m => if decide (m < l.length) then l.take m else l

/-- The fetch loop body: given the pages the source still has, the
accumulated items and the limit, returns (items, page fetches made,
inter-page delays incurred). A fetch with no pages left returns the empty
page, which sets `hasMore = false` and breaks; a full page recurses, after
a rate-limit delay taken only when the loop guard still holds. -/
def fetchAux : List (List α) → List α → Option Nat → List α × Nat × Nat
  | ps, acc, maxI =>
    if budgetLeft maxI acc.length then
      match ps with
      | [] => (acc, 1, 0)
      | p :: rest =>
        if p.length = 0 then (acc, 1, 0)
        else
          let acc2 := acc ++ p
          if p.length = perPage then
            if budgetLeft maxI acc2.length then
              let r := fetchAux rest acc2 maxI
              (r.1, r.2.1 + 1, r.2.2 + 1)
            else (acc2, 1, 0)
          else (acc2, 1, 0)
    else (acc, 0, 0)

/-- `RaindropAPI.fetchBookmarks` against a source that serves the given
pages in order (and empty pages after them): the fetched items after the
final `maxItems` trim, together with the number of page fetches made and
the number of inter-page rate-limit delays incurred. -/
def fetchBookmarks (pages : List (List α)) (maxItems : Option Nat) : List α × Nat × Nat :=
  let r := fetchAux pages [] maxItems
  (trimMax maxItems r.1, r.2.1, r.2.2)

/-! ## VideoIdentifier
Embedding of `VideoDetector` (src/src/video/detector.ts) and of
`Database.extractVideoId` (src/src/db/database.ts), which embed the same
regular expression
`(youtube.com|youtu.be)\/(watch?v=|embed\/|v\/|)([\w-]{11})` with
optional protocol, `www.` and `m.` prefixes, searched anywhere in the
string. The search is modelled positionally: the capture of the leftmost
position at which the mandatory part of the pattern matches, trying the
path-shape alternatives in the order the regex lists them. The optional
prefixes immediately precede the host literal, so they change neither
whether a match exists nor the captured group, and are dropped from the
model. -/

/-- The character class of the capture group: `[\w-]`. -/
def wordDashChar (c : Char) : Bool := c.isAlphanum || c = '_' || c = '-'

/-- The capture `([\w-]{11})` placed right at `r`: exactly the next 11
characters when all of them are in the class. -/
def elevenAt (r : Str) : Option Str :=
  let cand := r.take 11
  if cand.length = 11 && cand.all wordDashChar then some cand else none

/-- The path-shape alternation `(?:watch\?v=|embed\/|v\/|)` followed by
the 11-character capture, tried in regex order at the text directly after
the host literal and its slash. -/
def shapeCapture (r : Str) : Option Str :=
  match (if (str "watch?v=").isPrefixOf r then elevenAt (r.drop 8) else none) with
  | some v => some v
  | none =>
    match (if (str "embed/").isPrefixOf r then elevenAt (r.drop 6) else none) with
    | some v => some v
    | none =>
      match (if (str "v/").isPrefixOf r then elevenAt (r.drop 2) else none) with
      | some v => some v
      | none => elevenAt r

/-- The unanchored search of the detector regex: at each position try the
host alternation `(?:youtube\.com|youtu\.be)\/` and then `shapeCapture`;
the first position that completes a match yields the capture. -/
def ytSearch : Str → Option Str
  | [] => none
  | c :: t =>
    match
      (if (str "youtube.com/").isPrefixOf (c :: t) then shapeCapture ((c :: t).drop 12)
       else if (str "youtu.be/").isPrefixOf (c :: t) then shapeCapture ((c :: t).drop 9)
       else none)
    with
    | some v => some v
    | none => ytSearch t

/-- `Database.extractVideoId` (also `VideoDetector.supportedSites[0].extractId`):
the capture of the shared YouTube regex, or `null` when it does not match. -/
def extractVideoId (url : Str) : Option Str := ytSearch url

/-- The hostname of a parsed URL (the only part of the platform `URL`
object the detector reads). -/
structure UrlParts where
  hostname : Str
deriving DecidableEq

/-- Model of the platform `new URL(url)` constructor for the URL shapes
the detector distinguishes: an absolute `scheme://host...` input parses to
its lowercased hostname (cut at the first `/`, `?`, `#` or `:` after the
authority) and anything without a `scheme://` head throws, i.e. parses to
`none`. -/
def parseUrl (s : Str) : Option UrlParts :=
  let scheme := s.takeWhile (fun c => decide (c ≠ ':'))
  if scheme.isEmpty then none
  else if !(scheme.all Char.isAlpha) then none
  else if (str "://").isPrefixOf (s.drop scheme.length) then
    let rest := s.drop (scheme.length + 3)
    let host := rest.takeWhile (fun c => decide (c ∉ ['/', '?', '#', ':']))
    if host.isEmpty then none else some ⟨lowerStr host⟩
  else none

/-- `VideoDetector.normalizeHostname`: strip one leading `www.`. -/
def normalizeHostname (h : Str) : Str :=
  if (str "www.").isPrefixOf h then h.drop 4 else h

/-- The hostname test of `VideoDetector.isVideoUrl`/`detectVideo`: some
supported hostname of the single registered site occurs as a substring
(JS `String.prototype.includes`) of the normalized hostname. -/
def hostnameMatchesSite (h : Str) : Bool :=
  containsSub (str "youtube.com") h || containsSub (str "youtu.be") h ||
    containsSub (str "m.youtube.com") h

/-- `VideoDetector.isVideoUrl`: parse the URL (a parse failure is caught
and yields `false`) and test the normalized hostname. -/
def isVideoUrl (url : Str) : Bool :=
  match parseUrl url with
  | some u => hostnameMatchesSite (normalizeHostname u.hostname)
  | none => false

/-- The record `VideoDetector.detectVideo` returns: platform name, the
platform-native id when the regex captures one, and the validity flag
`site.pattern.test(url)`. -/
structure Detection where
  platform : Str
  id : Option Str
  isValid : Bool
deriving DecidableEq

/-- `VideoDetector.detectVideo`: `null` when the URL does not parse (the
exception is caught) or no site hostname matches; otherwise the site's
detection, with `isValid` the regex test — the same regex as the id
extraction, so `isValid` is exactly whether an id was captured. -/
def detectVideo (url : Str) : Option Detection :=
  match parseUrl url with
  | some u =>
    if hostnameMatchesSite (normalizeHostname u.hostname) then
      some ⟨str "YouTube", ytSearch url, (ytSearch url).isSome⟩
    else none
  | none => none

/-- One Raindrop bookmark (the fields the pipeline reads). -/
structure Bookmark where
  bid : Str
  title : Str
  link : Str
  tags : List Str
deriving DecidableEq

/-- `VideoDetector.getPlatformBreakdown` for the single registered
platform: the count of bookmarks whose link yields a detection (every
detection carries platform YouTube, so the breakdown is this one count). -/
def platformBreakdownCount (bms : List Bookmark) : Nat :=
  (bms.filter (fun b => (detectVideo b.link).isSome)).length

/-! ## Tag merge
Embedding of the tag merge in `processSingleVideo`
(src/IMPROVEMENTS.md): `[...new Set([...existingTags, ...generatedTags])]`.
A JS `Set` keeps insertion order and drops later duplicates. -/

/-- Iteration of JS `Set` insertion over a list: keep each element the
first time it appears, tracking what has been seen. -/
def dedupAux [DecidableEq α] (seen : List α) : List α → List α
  | [] => []
  | x :: t => if x ∈ seen then dedupAux seen t else x :: dedupAux (x :: seen) t

/-- `[...new Set(l)]`: the elements of `l` in first-occurrence order,
without duplicates. -/
def jsSetDedup [DecidableEq α] (l : List α) : List α := dedupAux [] l

/-- The merged tag list `processSingleVideo` sends to
`raindropAPI.updateBookmarkTags`: `[...new Set([...existing, ...generated])]`. -/
def mergeTags (existing generated : List Str) : List Str :=
  jsSetDedup (existing ++ generated)

/-! ## TagSyncEngine batch mode
Embedding of `TagUpdater` in its store-driven variant
(src/unnamed/part_000): URL normalization, the video-id extraction regex
list, bookmark matching, and the per-record sync step
`processVideoFromDatabase`. The sibling markdown-driven variant
(src/src/utils/tag-updater.ts) shares `findMatchingBookmark` and
`extractVideoId` verbatim. -/

/-- One step of `normalizeUrl`: the replace of `^https?:\/\/`. -/
def stripProto (s : Str) : Str :=
  if (str "https://").isPrefixOf s then s.drop 8
  else if (str "http://").isPrefixOf s then s.drop 7
  else s

/-- One step of `normalizeUrl`: the replace of `^www\.`. -/
def stripWww (s : Str) : Str :=
  if (str "www.").isPrefixOf s then s.drop 4 else s

/-- One step of `normalizeUrl`: the replace of `\/$` (one trailing slash). -/
def stripTrailingSlash (s : Str) : Str :=
  if s.getLast? = some '/' then s.dropLast else s

/-- The line terminators that the JS dot does not match: LF, CR, LINE
SEPARATOR and PARAGRAPH SEPARATOR. -/
def isLineTerm (c : Char) : Bool :=
  c = '\n' || c = '\r' || c = '\u2028' || c = '\u2029'

/-- One step of `normalizeUrl`: the replace of `c.*$` for a marker
character `c`, with the non-multiline JS semantics — the dot does not
match line terminators and `$` asserts only the end of input, so the
replace removes the suffix starting at the leftmost occurrence of `c`
that has no line terminator anywhere after it, and does nothing when
every occurrence of `c` is followed by one. -/
def stripFrom (c : Char) : Str → Str
  | [] => []
  | x :: t =>
    if decide (x = c) && !(t.any isLineTerm) then [] else x :: stripFrom c t

/-- `TagUpdater.findMatchingBookmark`s inner `normalizeUrl`: lowercase,
strip the protocol, strip `www.`, strip one trailing slash, then apply
the `&.*$` replace and the `?.*$` replace — in exactly that order, so a
trailing slash standing before a query string survives normalization,
and a marker followed by a line terminator strips nothing. -/
def normalizeUrl (s : Str) : Str :=
  stripFrom '?' (stripFrom '&' (stripTrailingSlash (stripWww (stripProto (lowerStr s)))))

/-- The stop class `[^&\n?#]` of the tag-updater capture groups. -/
def notStopChar (c : Char) : Bool :=
  !(c = '&' || c = '\n' || c = '?' || c = '#')

/-- Unanchored search for `pat` followed by a nonempty maximal run of
characters satisfying `ok` — the shape of every pattern in
`TagUpdater.extractVideoId`, whose optional protocol and `www.` prefixes
immediately precede the literal and affect neither matching nor the
capture. A position where the literal occurs but the capture would be
empty does not match, and the search moves on. -/
def searchCapBy (pat : Str) (ok : Char → Bool) : Str → Option Str
  | [] => none
  | c :: t =>
    match
      (if pat.isPrefixOf (c :: t) then
        let cap := ((c :: t).drop pat.length).takeWhile ok
        if cap.isEmpty then none else some cap
      else none)
    with
    | some v => some v
    | none => searchCapBy pat ok t

/-- `TagUpdater.extractVideoId`: the three YouTube patterns tried in
order, then the Vimeo pattern (whose capture class is `\d`). -/
def tuExtractVideoId (u : Str) : Option Str :=
  match searchCapBy (str "youtube.com/watch?v=") notStopChar u with
  | some v => some v
  | none =>
    match searchCapBy (str "youtu.be/") notStopChar u with
    | some v => some v
    | none =>
      match searchCapBy (str "youtube.com/embed/") notStopChar u with
      | some v => some v
      | none => searchCapBy (str "vimeo.com/") Char.isDigit u

/-- `TagUpdater.findMatchingBookmark`: scan the bookmark list; a bookmark
matches on equal normalized URLs, or else on extracted video ids when the
target URL has one and the two ids are equal. -/
def findMatchingBookmark (videoUrl : Str) : List Bookmark → Option Bookmark
  | [] => none
  | bm :: rest =>
    if normalizeUrl bm.link = normalizeUrl videoUrl then some bm
    else if (tuExtractVideoId videoUrl).isSome = true ∧
        tuExtractVideoId videoUrl = tuExtractVideoId bm.link then some bm
    else findMatchingBookmark videoUrl rest

/-- The `tags` column of the richer `processed_videos` schema
(src/unnamed/part_002) as `processVideoFromDatabase` consumes it: absent
(NULL, undefined or the JS-falsy empty string), a JSON string parsing to
an array of strings, or a string `JSON.parse` rejects. -/
inductive TagsJson
  | arr (tags : List Str)
  | bad (raw : Str)
deriving DecidableEq

/-- The store record the batch tag sync reads (the fields
`processVideoFromDatabase` touches). -/
structure DbVideo where
  video_id : Str
  url : Str
  tags : Option TagsJson
deriving DecidableEq

/-- The per-record outcome `TagUpdateResult` of the batch tag sync. -/
structure TagSyncResult where
  videoId : Str
  videoUrl : Str
  bookmarkId : Option Str
  tagsUpdated : Bool
  originalTags : List Str
  newTags : List Str
  error : Option Str
deriving DecidableEq

/-- `TagUpdater.processVideoFromDatabase`: validate the record, find the
matching bookmark, parse the stored tag JSON, then force-update the
bookmark tags unconditionally — there is no comparison against the
bookmark's current tags before the API call (the sort-and-compare
`areTagsEqual` appears only in a debug log line, which the embedding
drops). `apiOk` gives the outcome of `updateBookmarkTags` for a call; the
second component of the result lists the update calls issued, as
(bookmark id, tag payload) pairs. -/
def processVideoFromDatabase (apiOk : Str → List Str → Bool) (video : DbVideo)
    (bms : List Bookmark) : TagSyncResult × List (Str × List Str) :=
  let base : TagSyncResult :=
    ⟨video.video_id, video.url, none, false, [], [], none⟩
  match video.tags with
  | none => ({ base with error := some (str "Missing required data (url or tags)") }, [])
  | some tj =>
    if video.url.isEmpty then
      ({ base with error := some (str "Missing required data (url or tags)") }, [])
    else
      match findMatchingBookmark video.url bms with
      | none => ({ base with error := some (str "No matching bookmark found in Raindrop") }, [])
      | some bm =>
        match tj with
        | .bad _ =>
          ({ base with bookmarkId := some bm.bid,
                       error := some (str "Invalid tags format in database") }, [])
        | .arr videoTags =>
          if apiOk bm.bid videoTags then
            ({ base with bookmarkId := some bm.bid, newTags := videoTags,
                         originalTags := bm.tags, tagsUpdated := true },
             [(bm.bid, videoTags)])
          else
            ({ base with bookmarkId := some bm.bid, newTags := videoTags,
                         originalTags := bm.tags,
                         error := some (str "Failed to update bookmark tags via API") },
             [(bm.bid, videoTags)])

/-! ## BatchDispatcher
Embedding of `processVideos`, `processVideosConcurrently`,
`processSingleVideo` and `chunkArray` (src/IMPROVEMENTS.md). The external
summarizer is a parameter mapping each bookmark to its invocation
outcome: a returned result record, or a thrown exception — the latter is
what the per-item `try/catch` of `processSingleVideo` converts into a
`failed` count. `Promise.allSettled` waits for every item of a batch to
settle; the per-item effects (counter increments, store upserts of the
items' distinct keys, appended tag-update calls) are modelled settling in
batch order. The fixed inter-batch pause and the progress/log output have
no further observable effect and are not tracked. -/

/-- `VideoProcessingResult` as `processSingleVideo` consumes it. -/
structure SummResult where
  success : Bool
  outputFile : Option Str
  generatedTags : Option (List Str)
  error : Option Str
deriving DecidableEq

/-- Outcome of one summarizer invocation: a result record, or a thrown
exception (a rejected promise). -/
inductive SummOutcome
  | res (r : SummResult)
  | thrown (msg : Str)

/-- The `ProcessingStats` counters of one run. -/
structure RunStats where
  totalBookmarks : Nat
  videoBookmarks : Nat
  processed : Nat
  successful : Nat
  failed : Nat
  skipped : Nat
deriving DecidableEq

/-- State threaded through a run: the statistics accumulator, the
processed-record store, the tag-update calls issued to the Raindrop API,
and the bookmark ids dispatched to the summarizer, in dispatch order. -/
structure PipelineState where
  stats : RunStats
  store : List PRecord
  tagCalls : List (Str × List Str)
  dispatched : List Str
deriving DecidableEq

/-- The dedup query `Database.isBookmarkProcessed` against the store
model: some record carries the bookmark id (`COUNT(*) > 0`). -/
def storeHasBookmark (s : List PRecord) (bid : Str) : Bool :=
  s.any (fun r => decide (r.raindrop_bookmark_id = bid))

/-- `processSingleVideo`: dispatch the summarizer and settle the item.
A thrown invocation is caught at the per-item boundary and counted
failed; a returned failure result is counted failed; a success increments
`successful`, then persists a record when the link yields a video id and
the result names an output file, then issues the merged tag update when
the result carries a nonempty generated tag list. -/
def processSingleVideo (summ : Bookmark → SummOutcome) (now : Str)
    (st : PipelineState) (b : Bookmark) : PipelineState :=
  match summ b with
  | .thrown _ =>
    ⟨{ st.stats with failed := st.stats.failed + 1 },
      st.store, st.tagCalls, st.dispatched ++ [b.bid]⟩
  | .res r =>
    if r.success then
      let newStore :=
        match extractVideoId b.link, r.outputFile with
        | some vid, some f =>
          markVideoProcessed ⟨vid, b.link, b.title, f, now, b.bid⟩ st.store
        | _, _ => st.store
      let newCalls :=
        match r.generatedTags with
        | some g => if g.isEmpty then st.tagCalls else st.tagCalls ++ [(b.bid, mergeTags b.tags g)]
        | none => st.tagCalls
      ⟨{ st.stats with successful := st.stats.successful + 1 },
        newStore, newCalls, st.dispatched ++ [b.bid]⟩
    else
      ⟨{ st.stats with failed := st.stats.failed + 1 },
        st.store, st.tagCalls, st.dispatched ++ [b.bid]⟩

/-- The recursion of `chunkArray` for chunk size `c + 1`, fuelled by an
upper bound on the number of loop iterations (each iteration consumes at
least one element, so the list length bounds them). -/
def chunkFuel (c : Nat) : Nat → List α → List (List α)
  | _, [] => []
  | 0, _ => []
  | fuel + 1, x :: xs => (x :: xs.take c) :: chunkFuel c fuel (xs.drop c)

/-- `chunkArray(array, chunkSize)`: split into consecutive chunks of the
given size (the TS loop does not terminate for chunk size 0; the model
returns no batches there, a case the theorems exclude). -/
def chunkArray (l : List α) (c : Nat) : List (List α) :=
  match c with
  | 0 => []
  | Nat.succ c => chunkFuel c l.length l

/-- `processVideosConcurrently`: split into batches of `concurrency`,
then settle every item of every batch. -/
def processVideosConcurrently (summ : Bookmark → SummOutcome) (now : Str)
    (videos : List Bookmark) (concurrency : Nat) (st : PipelineState) : PipelineState :=
  (chunkArray videos concurrency).foldl
    (fun acc batch => batch.foldl (processSingleVideo summ now) acc) st

/-- The candidate list the run actually dispatches: the video bookmarks,
dedup-filtered by stored bookmark id unless `force`, truncated to the
`maxVideos` budget. -/
def plannedVideos (force : Bool) (maxVideos : Nat) (store0 : List PRecord)
    (bookmarks : List Bookmark) : List Bookmark :=
  let vbs := bookmarks.filter (fun b => isVideoUrl b.link)
  (if force then vbs else vbs.filter (fun b => !storeHasBookmark store0 b.bid)).take maxVideos

/-- `processVideos` from the fetched bookmark list on: count the
bookmarks, filter the video bookmarks, dedup against the store (counting
skips) unless `force`, truncate to `maxVideos`, and run the batches (a
non-dry run; the read side of the dedup check is modelled as answered by
the store, the fail-open read-error path being `isBookmarkProcessedOp`s
concern). -/
def runPipeline (summ : Bookmark → SummOutcome) (now : Str) (force : Bool)
    (maxVideos concurrency : Nat) (store0 : List PRecord)
    (bookmarks : List Bookmark) : PipelineState :=
  let base : RunStats := ⟨bookmarks.length, 0, 0, 0, 0, 0⟩
  let init : PipelineState := ⟨base, store0, [], []⟩
  if bookmarks.isEmpty then init
  else
    let vbs := bookmarks.filter (fun b => isVideoUrl b.link)
    let st1 : PipelineState := ⟨{ base with videoBookmarks := vbs.length }, store0, [], []⟩
    if vbs.isEmpty then st1
    else
      let keep := if force then vbs else vbs.filter (fun b => !storeHasBookmark store0 b.bid)
      let skippedN := if force then 0 else (vbs.filter (fun b => storeHasBookmark store0 b.bid)).length
      let toProcess := keep.take maxVideos
      let st2 : PipelineState :=
        ⟨{ st1.stats with skipped := skippedN, processed := toProcess.length }, store0, [], []⟩
      if toProcess.isEmpty then st2
      else processVideosConcurrently summ now toProcess concurrency st2

/-! ## URL-difference decomposition
Vocabulary for stating which URL pairs the batch tag-sync matcher treats
as the same item: a URL split as protocol, `www.` prefix, shared core,
trailing slash and query string. -/

/-- An optional protocol part: nothing, `http://` or `https://`. -/
def ProtoPart (p : Str) : Prop := p = [] ∨ p = str "http://" ∨ p = str "https://"

/-- An optional `www.` prefix part. -/
def WwwPart (w : Str) : Prop := w = [] ∨ w = str "www."

/-- An optional trailing-slash part. -/
def SlashPart (x : Str) : Prop := x = [] ∨ x = str "/"

/-- An optional query-string part: nothing, or `?` followed by anything. -/
def QueryPart (q : Str) : Prop := q = [] ∨ ∃ t : Str, q = '?' :: t

/-- A well-behaved shared core for the decomposition: nonempty, already
lowercase, free of `&` and `?`, not itself starting like a protocol or
`www.` prefix, and not ending in a slash (those characters belong to the
surrounding parts). -/
def CoreOk (core : Str) : Prop :=
  core ≠ [] ∧ lowerStr core = core ∧ '&' ∉ core ∧ '?' ∉ core ∧
    ¬ (str "https://") <+: core ∧ ¬ (str "http://") <+: core ∧
    ¬ (str "www.") <+: core ∧ core.getLast? ≠ some '/'

/-! ## Concrete fixtures
Closed inputs used by the scenario conjuncts, witnesses and
counterexamples. -/

/-- Scenario bookmark 1: a YouTube watch link with a valid 11-character id. -/
def sb1 : Bookmark := ⟨str "B1", str "T1", str "https://youtube.com/watch?v=vid00000001", []⟩

/-- Scenario bookmark 2. -/
def sb2 : Bookmark := ⟨str "B2", str "T2", str "https://youtube.com/watch?v=vid00000002", []⟩

/-- Scenario bookmark 3 (the one whose summarizer call fails). -/
def sb3 : Bookmark := ⟨str "B3", str "T3", str "https://youtube.com/watch?v=vid00000003", []⟩

/-- Scenario bookmark 4. -/
def sb4 : Bookmark := ⟨str "B4", str "T4", str "https://youtube.com/watch?v=vid00000004", []⟩

/-- Scenario bookmark 5. -/
def sb5 : Bookmark := ⟨str "B5", str "T5", str "https://youtube.com/watch?v=vid00000005", []⟩

/-- A summarizer that throws on bookmark 3 and succeeds (with an output
file and no generated tags) on every other bookmark. -/
def scenarioSumm : Bookmark → SummOutcome := fun b =>
  if b.bid = str "B3" then SummOutcome.thrown (str "summarizer crashed")
  else SummOutcome.res ⟨true, some (str "out.md"), some [], none⟩

/-- A summarizer whose every invocation reports failure. -/
def failSumm : Bookmark → SummOutcome := fun _ =>
  SummOutcome.res ⟨false, none, none, some (str "quota exceeded")⟩

/-- The persisted-record URL of the URL-normalization example. -/
def ytRecordUrl : Str := str "https://www.youtube.com/watch?v=XYZ"

/-- The bookmark of the URL-normalization example: same video, no
protocol, no `www.`, an extra query parameter. -/
def ytBookmark : Bookmark := ⟨str "BMYT", str "YT", str "youtube.com/watch?v=XYZ&feature=share", []⟩

/-- The record URL of the matcher counterexample: a plain link with no
extractable video id. -/
def cexTargetUrl : Str := str "a.com/p"

/-- The bookmark of the matcher counterexample: the same link with a
trailing slash followed by a query string. -/
def cexBookmark : Bookmark := ⟨str "BMX", str "X", str "a.com/p/?q=1", []⟩

/-! ## Theorems -/

/-- C9: summarizer error classification is ordered first-match — the five
category rules of `parseErrorMessage` are evaluated top-to-bottom and the
first matching rule decides the message: the project-configuration rule
wins outright; the authentication rule wins whenever the project rule
does not match; a text matching the quota/rate-limit rule is classified
as the quota category whenever no earlier rule matches, never as the
generic fallback; the inaccessible-video rule fires next; and only a text
matching no category falls back to its first line (or the unknown
message when that line is empty). -/
theorem C9_error_classification_first_match :
    (∀ s : Str, containsSub (str "GOOGLE_CLOUD_PROJECT_ID") s = true →
      parseErrorMessage s = msgProject) ∧
    (∀ s : Str, containsSub (str "GOOGLE_CLOUD_PROJECT_ID") s = false →
      containsSub (str "authentication") s = true →
      parseErrorMessage s = msgAuth) ∧
    (∀ s : Str, containsSub (str "GOOGLE_CLOUD_PROJECT_ID") s = false →
      containsSub (str "authentication") s = false →
      (containsSub (str "quota") s = true ∨ containsSub (str "rate limit") s = true) →
      parseErrorMessage s = msgQuota) ∧
    (∀ s : Str, containsSub (str "GOOGLE_CLOUD_PROJECT_ID") s = false →
      containsSub (str "authentication") s = false →
      containsSub (str "quota") s = false → containsSub (str "rate limit") s = false →
      containsSub (str "video") s = true → containsSub (str "not found") s = true →
      parseErrorMessage s = msgVideo) ∧
    (∀ s : Str, containsSub (str "GOOGLE_CLOUD_PROJECT_ID") s = false →
      containsSub (str "authentication") s = false →
      containsSub (str "quota") s = false → containsSub (str "rate limit") s = false →
      (containsSub (str "video") s = false ∨ containsSub (str "not found") s = false) →
      parseErrorMessage s =
        (if (s.takeWhile (fun c => decide (c ≠ '\n'))).isEmpty then msgUnknown
         else s.takeWhile (fun c => decide (c ≠ '\n')))) := by
  refine ⟨?_, ?_, ?_, ?_, ?_⟩
  · intro s h1
    simp [parseErrorMessage, h1]
  · intro s h1 h2
    simp [parseErrorMessage, h1, h2]
  · intro s h1 h2 h3
    rcases h3 with h3 | h3 <;> simp [parseErrorMessage, h1, h2, h3]
  · intro s h1 h2 h3 h4 h5 h6
    simp [parseErrorMessage, h1, h2, h3, h4, h5, h6]
  · intro s h1 h2 h3 h4 h5
    rcases h5 with h5 | h5 <;> simp [parseErrorMessage, h1, h2, h3, h4, h5]

/-- C9 witness: a concrete error text matching the rate-limit substring is
classified as the quota category, not as the generic first-line fallback. -/
theorem C9_error_classification_witness :
    parseErrorMessage (str "Vertex AI: rate limit reached for project") = msgQuota :=
  C9_error_classification_first_match.2.2.1 _ (by decide) (by decide) (Or.inr (by decide))

/-- C10: the store lookup operations are total — each of
`isVideoProcessed`, `isBookmarkProcessed`, `getProcessedVideo`,
`deleteProcessedVideo` and `getStats` catches a thrown statement error
inside the operation and returns its safe default (false, false, null,
false, all-zero counts), while `markVideoProcessed` and
`getProcessedVideos` re-raise the error as a `DatabaseError`. -/
theorem C10_lookups_never_throw :
    (∀ e : Str, isVideoProcessedOp (Except.error e) = false) ∧
    (∀ e : Str, isBookmarkProcessedOp (Except.error e) = false) ∧
    (∀ e : Str, getProcessedVideoOp (Except.error e) = none) ∧
    (∀ e : Str, deleteProcessedVideoOp (Except.error e) = false) ∧
    (∀ (e : Str) (d w : Except Str (Option Int)),
      getStatsOp (Except.error e) d w = ⟨0, 0, 0⟩) ∧
    (∀ (t : Except Str (Option Int)) (e : Str) (w : Except Str (Option Int)),
      getStatsOp t (Except.error e) w = ⟨0, 0, 0⟩) ∧
    (∀ (t d : Except Str (Option Int)) (e : Str),
      getStatsOp t d (Except.error e) = ⟨0, 0, 0⟩) ∧
    (∀ e : Str, markVideoProcessedOp (Except.error e) =
      Except.error (str "Failed to mark video as processed: " ++ e)) ∧
    (∀ e : Str, getProcessedVideosOp (Except.error e) =
      Except.error (str "Failed to get processed videos: " ++ e)) := by
  refine ⟨fun e => rfl, fun e => rfl, fun e => rfl, fun e => rfl, ?_, ?_, ?_,
    fun e => rfl, fun e => rfl⟩
  · intro e d w
    cases d <;> cases w <;> rfl
  · intro t e w
    cases t <;> cases w <;> rfl
  · intro t d e
    cases t <;> cases d <;> rfl

/-- C10 witness: a concrete thrown statement error makes each lookup
return its safe default. -/
theorem C10_lookups_never_throw_witness :
    isVideoProcessedOp (Except.error (str "database is locked")) = false :=
  C10_lookups_never_throw.1 (str "database is locked")

/-- Helper: an upsert leaves exactly the new row under its canonical id. -/
theorem filter_markVideoProcessed (r : PRecord) (s : List PRecord) :
    (markVideoProcessed r s).filter (fun x => decide (x.video_id = r.video_id)) = [r] := by
  unfold markVideoProcessed
  rw [List.filter_cons_of_pos (by simp)]
  have : (s.filter (fun x => decide (x.video_id ≠ r.video_id))).filter
      (fun x => decide (x.video_id = r.video_id)) = [] := by
    rw [List.filter_eq_nil_iff]
    intro a ha
    have h2 := (List.mem_filter.mp ha).2
    simp at h2 ⊢
    exact h2
  rw [this]

/-- Helper: every reachable store state has pairwise distinct canonical
video ids. -/
theorem reachable_nodup (s : List PRecord) (h : StoreReachable s) :
    (s.map (fun r => r.video_id)).Nodup := by
  induction h with
  | init => simp
  | upsert r s hs ih =>
    unfold markVideoProcessed
    simp only [List.map_cons, List.nodup_cons]
    constructor
    · intro hmem
      rcases List.mem_map.mp hmem with ⟨x, hx, hvx⟩
      have h2 := (List.mem_filter.mp hx).2
      simp at h2
      exact h2 hvx
    · exact ((List.filter_sublist s).map (fun r => r.video_id)).nodup ih
  | del vid s hs ih =>
    exact ((List.filter_sublist s).map (fun r => r.video_id)).nodup ih

/-- C3: upsert uniqueness invariant — every store state reachable by
upserts and deletes from the empty table has at most one record per
canonical video id (the projection to video ids has no duplicate), and an
upsert whose canonical id is already present leaves exactly the one new
record under that id, rather than erroring or keeping a second row. -/
theorem C3_upsert_unique (s : List PRecord) (h : StoreReachable s) :
    (s.map (fun r => r.video_id)).Nodup ∧
    ∀ r : PRecord,
      (markVideoProcessed r s).filter (fun x => decide (x.video_id = r.video_id)) = [r] :=
  ⟨reachable_nodup s h, fun r => filter_markVideoProcessed r s⟩

/-- C3 witness: the invariant instantiated at a concrete reachable state,
a store already holding a record with the upserted canonical id. -/
theorem C3_upsert_unique_witness :
    ((markVideoProcessed ⟨str "v00000000001", str "u", str "t", str "f", str "p", str "b"⟩
        []).map (fun r => r.video_id)).Nodup ∧
    ∀ r : PRecord,
      (markVideoProcessed r
          (markVideoProcessed ⟨str "v00000000001", str "u", str "t", str "f", str "p", str "b"⟩
            [])).filter (fun x => decide (x.video_id = r.video_id)) = [r] :=
  C3_upsert_unique _
    (StoreReachable.upsert ⟨str "v00000000001", str "u", str "t", str "f", str "p", str "b"⟩
      [] StoreReachable.init)

/-- Helper: membership in the JS-Set dedup of a list, relative to the
already-seen elements. -/
theorem mem_dedupAux [DecidableEq α] (l : List α) :
    ∀ (seen : List α) (x : α), x ∈ dedupAux seen l ↔ x ∈ l ∧ x ∉ seen := by
  induction l with
  | nil => intro seen x; simp [dedupAux]
  | cons a t ih =>
    intro seen x
    by_cases ha : a ∈ seen
    · rw [dedupAux, if_pos ha, ih]
      constructor
      · rintro ⟨hx, hs⟩
        exact ⟨List.mem_cons_of_mem a hx, hs⟩
      · rintro ⟨hx, hs⟩
        rcases List.mem_cons.mp hx with hx | hx
        · exact absurd (hx ▸ ha) hs
        · exact ⟨hx, hs⟩
    · rw [dedupAux, if_neg ha]
      constructor
      · intro hmem
        rcases List.mem_cons.mp hmem with hx | hx
        · exact ⟨hx ▸ List.mem_cons_self a t, hx ▸ ha⟩
        · have := (ih (a :: seen) x).mp hx
          refine ⟨List.mem_cons_of_mem a this.1, fun hs => this.2 (List.mem_cons_of_mem a hs)⟩
      · rintro ⟨hx, hs⟩
        by_cases hxa : x = a
        · exact hxa ▸ List.mem_cons_self a _
        · rcases List.mem_cons.mp hx with hx | hx
          · exact absurd hx hxa
          · exact List.mem_cons_of_mem a ((ih (a :: seen) x).mpr
              ⟨hx, fun hmem => (List.mem_cons.mp hmem).elim hxa hs⟩)

/-- Helper: the JS-Set dedup never keeps a duplicate. -/
theorem nodup_dedupAux [DecidableEq α] (l : List α) :
    ∀ seen : List α, (dedupAux seen l).Nodup := by
  induction l with
  | nil => intro seen; simp [dedupAux]
  | cons a t ih =>
    intro seen
    by_cases ha : a ∈ seen
    · rw [dedupAux, if_pos ha]; exact ih seen
    · rw [dedupAux, if_neg ha]
      refine List.nodup_cons.mpr ⟨?_, ih (a :: seen)⟩
      intro hmem
      exact ((mem_dedupAux t (a :: seen) a).mp hmem).2 (List.mem_cons_self a seen)

/-- C5: the merged tag list sent to the tag-update endpoint is the
duplicate-free, order-independent set union of the original and generated
tags — it has no duplicates; its members are exactly the union of the two
inputs; permuting either input leaves the member set unchanged; the
example inputs merge to exactly the three tags a, b, c; and every
tag-update call `processSingleVideo` issues after a successful summarize
carries exactly this merge of the bookmark's tags with the generated
tags. -/
theorem C5_tag_merge_set_union :
    (∀ existing generated : List Str, (mergeTags existing generated).Nodup) ∧
    (∀ (existing generated : List Str) (x : Str),
      x ∈ mergeTags existing generated ↔ x ∈ existing ∨ x ∈ generated) ∧
    (∀ e1 e2 g1 g2 : List Str, e1.Perm e2 → g1.Perm g2 →
      ∀ x : Str, x ∈ mergeTags e1 g1 ↔ x ∈ mergeTags e2 g2) ∧
    (mergeTags [str "a", str "b"] [str "b", str "c"] = [str "a", str "b", str "c"] ∧
      (mergeTags [str "a", str "b"] [str "b", str "c"]).length = 3) ∧
    (∀ (summ : Bookmark → SummOutcome) (now : Str) (st : PipelineState) (b : Bookmark),
      (processSingleVideo summ now st b).tagCalls = st.tagCalls ∨
      ∃ (r : SummResult) (g : List Str), summ b = SummOutcome.res r ∧ r.success = true ∧
        r.generatedTags = some g ∧ g.isEmpty = false ∧
        (processSingleVideo summ now st b).tagCalls =
          st.tagCalls ++ [(b.bid, mergeTags b.tags g)]) := by
  have hmem : ∀ (existing generated : List Str) (x : Str),
      x ∈ mergeTags existing generated ↔ x ∈ existing ∨ x ∈ generated := by
    intro existing generated x
    rw [mergeTags, jsSetDedup, mem_dedupAux]
    simp
  refine ⟨?_, hmem, ?_, ⟨by decide, by decide⟩, ?_⟩
  · intro existing generated
    exact nodup_dedupAux _ _
  · intro e1 e2 g1 g2 he hg x
    rw [hmem, hmem]
    constructor
    · rintro (h | h)
      · exact Or.inl (he.mem_iff.mp h)
      · exact Or.inr (hg.mem_iff.mp h)
    · rintro (h | h)
      · exact Or.inl (he.mem_iff.mpr h)
      · exact Or.inr (hg.mem_iff.mpr h)
  · intro summ now st b
    cases hs : summ b with
    | thrown msg => exact Or.inl (by simp [processSingleVideo, hs])
    | res r =>
      by_cases hsucc : r.success = true
      · cases hg : r.generatedTags with
        | none => exact Or.inl (by simp [processSingleVideo, hs, hsucc, hg])
        | some g =>
          by_cases hge : g.isEmpty = true
          · exact Or.inl (by simp [processSingleVideo, hs, hsucc, hg, hge])
          · refine Or.inr ⟨r, g, rfl, hsucc, hg, by simpa using hge, ?_⟩
            simp [processSingleVideo, hs, hsucc, hg, hge]
      · exact Or.inl (by simp [processSingleVideo, hs, hsucc])

/-- C5 witness: the example merge, established through the claim theorem
with permuted inputs — the member set is unchanged when both inputs are
reordered. -/
theorem C5_tag_merge_set_union_witness :
    str "c" ∈ mergeTags [str "b", str "a"] [str "c", str "b"] ↔
      str "c" ∈ mergeTags [str "a", str "b"] [str "b", str "c"] :=
  C5_tag_merge_set_union.2.2.1 [str "b", str "a"] [str "a", str "b"] [str "c", str "b"]
    [str "b", str "c"] (List.Perm.swap (str "a") (str "b") []) (List.Perm.swap (str "b") (str "c") [])
    (str "c")

/-- Helper: the fixed page size is positive. -/
theorem perPage_ne_zero : ¬ perPage = 0 := by simp [perPage]

/-- Helper: when the loop guard holds, at least one page fetch happens. -/
theorem fetchAux_pos {α : Type} (ps : List (List α)) (acc : List α) (maxI : Option Nat)
    (h : budgetLeft maxI acc.length = true) : 1 ≤ (fetchAux ps acc maxI).2.1 := by
  cases ps with
  | nil => rw [fetchAux]; simp [h]
  | cons p rest =>
    rw [fetchAux]
    simp only [h, if_true]
    by_cases h0 : p.length = 0
    · simp [h0, perPage_ne_zero]
    · by_cases hfull : p.length = perPage
      · by_cases hb2 : budgetLeft maxI (acc.length + perPage) = true
        · simp [h0, hfull, hb2, perPage_ne_zero]
        · simp [h0, hfull, hb2, perPage_ne_zero]
      · simp [h0, hfull]

/-- Helper: the inter-page delay count is one less than the fetch count
(each delay is taken only because another fetch follows), except in a run
whose guard fails outright and fetches nothing. -/
theorem fetchAux_delays {α : Type} (ps : List (List α)) :
    ∀ (acc : List α) (maxI : Option Nat),
      (fetchAux ps acc maxI).2.1 = 0 ∨
        (fetchAux ps acc maxI).2.2 + 1 = (fetchAux ps acc maxI).2.1 := by
  induction ps with
  | nil =>
    intro acc maxI
    rw [fetchAux]
    by_cases h : budgetLeft maxI acc.length = true
    · right; simp [h]
    · left; simp [h]
  | cons p rest ih =>
    intro acc maxI
    rw [fetchAux]
    by_cases h : budgetLeft maxI acc.length = true
    · simp only [h, if_true]
      by_cases h0 : p.length = 0
      · right; simp [h0]
      · by_cases hfull : p.length = perPage
        · by_cases hb2 : budgetLeft maxI (acc.length + perPage) = true
          · have hb2m : budgetLeft maxI (acc ++ p).length = true := by
              simpa [hfull] using hb2
            have hpos := fetchAux_pos rest (acc ++ p) maxI hb2m
            rcases ih (acc ++ p) maxI with hz | heq
            · exact absurd hz (by omega)
            · right
              simp [h0, hfull, hb2, perPage_ne_zero] <;> omega
          · right; simp [h0, hfull, hb2, perPage_ne_zero]
        · right; simp [h0, hfull]
    · left; simp [h]

/-- Helper: the accumulated items are always the accumulator followed by
the concatenation of a prefix of the source pages. -/
theorem fetchAux_concat {α : Type} (ps : List (List α)) :
    ∀ (acc : List α) (maxI : Option Nat),
      ∃ k, k ≤ ps.length ∧ (fetchAux ps acc maxI).1 = acc ++ (ps.take k).flatten := by
  induction ps with
  | nil =>
    intro acc maxI
    refine ⟨0, Nat.le_refl 0, ?_⟩
    rw [fetchAux]
    by_cases h : budgetLeft maxI acc.length = true <;> simp [h]
  | cons p rest ih =>
    intro acc maxI
    rw [fetchAux]
    by_cases h : budgetLeft maxI acc.length = true
    · simp only [h, if_true]
      by_cases h0 : p.length = 0
      · exact ⟨0, Nat.zero_le _, by simp [h0]⟩
      · by_cases hfull : p.length = perPage
        · by_cases hb2 : budgetLeft maxI (acc.length + perPage) = true
          · obtain ⟨k, hk, heq⟩ := ih (acc ++ p) maxI
            refine ⟨k + 1, by simp; omega, ?_⟩
            simp [h0, hfull, hb2, perPage_ne_zero, heq, List.take_succ_cons,
              List.append_assoc]
          · exact ⟨1, by simp, by simp [h0, hfull, hb2, perPage_ne_zero]⟩
        · exact ⟨1, by simp, by simp [h0, hfull]⟩
    · exact ⟨0, Nat.zero_le _, by simp [h]⟩

/-- Helper: with no item limit, a source whose pages are all full is
drained completely — every page is fetched, a final short (empty) fetch
terminates the loop, and a delay precedes every fetch but the first. -/
theorem fetchAux_allFull {α : Type} (ps : List (List α)) :
    ∀ acc : List α, (∀ p ∈ ps, p.length = perPage) →
      fetchAux ps acc none = (acc ++ ps.flatten, ps.length + 1, ps.length) := by
  induction ps with
  | nil => intro acc _; rw [fetchAux]; simp [budgetLeft]
  | cons p rest ih =>
    intro acc hall
    have hp : p.length = perPage := hall p (List.mem_cons_self p rest)
    have h0 : ¬ p.length = 0 := by rw [hp]; exact perPage_ne_zero
    have hb : ∀ n : Nat, budgetLeft none n = true := fun _ => rfl
    rw [fetchAux]
    simp only [hb, if_true, h0, ite_false, hp, ite_true, if_false, if_neg]
    rw [ih (acc ++ p) (fun q hq => hall q (List.mem_cons_of_mem p hq))]
    simp [List.append_assoc, perPage_ne_zero]

/-- C4: pagination termination and delay placement — a source returning
one full page then one partial page causes exactly two page fetches, one
inter-page delay (none after the terminal page) and returns the
concatenation of both pages; in every run the delay count is exactly one
less than the fetch count (a delay happens only when another fetch
follows); the returned list is always the concatenation of a prefix of
the source pages, truncated by the `maxItems` trim; a first page already
meeting a positive `maxItems` budget within the page size stops after one
fetch with no delay and is truncated to the budget; a short first page
stops after one fetch with no delay; and an all-full-pages source is
drained to the terminating empty fetch, never stopping early. -/
theorem C4_pagination_termination_and_delays :
    (∀ (α : Type) (p1 p2 : List α), p1.length = perPage → p2.length < perPage → p2 ≠ [] →
      fetchBookmarks [p1, p2] none = (p1 ++ p2, 2, 1)) ∧
    (∀ (α : Type) (ps : List (List α)) (maxI : Option Nat),
      (fetchBookmarks ps maxI).2.1 = 0 ∨
        (fetchBookmarks ps maxI).2.2 + 1 = (fetchBookmarks ps maxI).2.1) ∧
    (∀ (α : Type) (ps : List (List α)) (maxI : Option Nat),
      ∃ k, k ≤ ps.length ∧ (fetchBookmarks ps maxI).1 = trimMax maxI (ps.take k).flatten) ∧
    (∀ (α : Type) (p : List α) (rest : List (List α)) (m : Nat),
      p.length = perPage → 0 < m → m ≤ perPage →
      fetchBookmarks (p :: rest) (some m) = (p.take m, 1, 0)) ∧
    (∀ (α : Type) (p : List α) (rest : List (List α)), p.length < perPage →
      fetchBookmarks (p :: rest) none = (p, 1, 0)) ∧
    (∀ (α : Type) (ps : List (List α)), (∀ p ∈ ps, p.length = perPage) →
      fetchBookmarks ps none = (ps.flatten, ps.length + 1, ps.length)) := by
  have hbnone : ∀ n : Nat, budgetLeft none n = true := fun _ => rfl
  refine ⟨?_, ?_, ?_, ?_, ?_, ?_⟩
  · intro α p1 p2 h1 h2 h3
    have h10 : ¬ p1.length = 0 := by rw [h1]; exact perPage_ne_zero
    have h20 : ¬ p2.length = 0 := by
      simpa using fun h => h3 (List.length_eq_zero.mp h)
    have h2full : ¬ p2.length = perPage := by omega
    unfold fetchBookmarks
    rw [fetchAux]
    simp only [hbnone, if_true, h10, ite_false, h1, ite_true, if_neg, if_false]
    rw [fetchAux]
    simp only [hbnone, if_true, h20, ite_false, h2full, ite_true, if_neg, if_false]
    simp [trimMax, perPage_ne_zero]
  · intro α ps maxI
    exact fetchAux_delays ps [] maxI
  · intro α ps maxI
    obtain ⟨k, hk, heq⟩ := fetchAux_concat ps [] maxI
    exact ⟨k, hk, by simp [fetchBookmarks, heq]⟩
  · intro α p rest m h1 hm hm50
    obtain ⟨m', rfl⟩ : ∃ k, m = k + 1 := ⟨m - 1, by omega⟩
    have h10 : ¬ p.length = 0 := by rw [h1]; exact perPage_ne_zero
    have hb0 : budgetLeft (some (m' + 1)) (List.length ([] : List α)) = true := by
      simp [budgetLeft]
    have hb1 : ¬ budgetLeft (some (m' + 1)) (([] : List α) ++ p).length = true := by
      simp [budgetLeft, h1]
      omega
    unfold fetchBookmarks
    rw [fetchAux]
    simp only [hb0, if_true, h10, ite_false, h1, ite_true, if_neg, if_false]
    simp only [List.nil_append] at hb1 ⊢
    rw [if_neg hb1]
    have : trimMax (some (m' + 1)) p = p.take (m' + 1) := by
      by_cases hlt : m' + 1 < p.length
      · simp [trimMax, hlt]
      · have : p.take (m' + 1) = p := List.take_of_length_le (by omega)
        simp [trimMax, hlt, this]
    simp [this, perPage_ne_zero]
  · intro α p rest h1
    have hfull : ¬ p.length = perPage := by omega
    unfold fetchBookmarks
    rw [fetchAux]
    by_cases h0 : p.length = 0
    · have hp : p = [] := List.length_eq_zero.mp h0
      simp [hbnone, h0, trimMax, hp]
    · simp [hbnone, h0, hfull, trimMax]
  · intro α ps hall
    unfold fetchBookmarks
    rw [fetchAux_allFull ps [] hall]
    simp [trimMax]

/-- C4 witness: the one-full-page-then-one-partial-page scenario at a
concrete source — exactly two fetches, one inter-page delay, and the
concatenation of both pages. -/
theorem C4_pagination_witness :
    fetchBookmarks [List.replicate 50 (0 : Nat), [1, 2, 3]] none =
      (List.replicate 50 (0 : Nat) ++ [1, 2, 3], 2, 1) :=
  C4_pagination_termination_and_delays.1 Nat (List.replicate 50 0) [1, 2, 3]
    (by simp [perPage]) (by simp [perPage]) (by simp)

/-- C8: classification is total and distinguishes hostname match from id
validity — a URL that fails to parse yields no detection (the parse
failure is caught, never propagated); a URL whose normalized hostname
matches a registered video hostname always yields a detection whose id is
the regex capture and whose validity flag is exactly whether the capture
exists, so a hostname-matching URL failing the 11-character id pattern
still yields a detection with the validity flag false; and any bookmark
with a detection is counted in the platform breakdown. -/
theorem C8_classify_total_and_breakdown :
    (∀ url : Str, parseUrl url = none → detectVideo url = none) ∧
    (∀ (url : Str) (u : UrlParts), parseUrl url = some u →
      hostnameMatchesSite (normalizeHostname u.hostname) = true →
      detectVideo url = some ⟨str "YouTube", ytSearch url, (ytSearch url).isSome⟩) ∧
    (∀ (url : Str) (u : UrlParts), parseUrl url = some u →
      hostnameMatchesSite (normalizeHostname u.hostname) = true →
      ytSearch url = none →
      detectVideo url = some ⟨str "YouTube", none, false⟩) ∧
    (∀ (b : Bookmark) (bms : List Bookmark), (detectVideo b.link).isSome = true →
      platformBreakdownCount (b :: bms) = platformBreakdownCount bms + 1) := by
  refine ⟨?_, ?_, ?_, ?_⟩
  · intro url h
    simp [detectVideo, h]
  · intro url u hp hm
    simp [detectVideo, hp, hm]
  · intro url u hp hm hyt
    simp [detectVideo, hp, hm, hyt]
  · intro b bms h
    simp [platformBreakdownCount, List.filter_cons, h]

/-- C8 witness: a concrete URL whose hostname matches but whose shape
fails the 11-character id pattern is still detected, with validity false. -/
theorem C8_classify_witness :
    detectVideo (str "https://youtube.com/playlist") =
      some ⟨str "YouTube", none, false⟩ :=
  C8_classify_total_and_breakdown.2.2.1 (str "https://youtube.com/playlist")
    ⟨str "youtube.com"⟩ (by decide) (by decide) (by decide)

/-- C7: store-driven batch tag sync is unconditional — for every record
with a URL and a parseable stored tag list that the matcher pairs with a
bookmark, the tag-update call is issued with exactly the stored tags, for
every API outcome, with no hypothesis about (and hence no short-circuit
on) the bookmark's current tags. -/
theorem C7_batch_sync_unconditional
    (apiOk : Str → List Str → Bool) (video : DbVideo) (bms : List Bookmark)
    (bm : Bookmark) (tags : List Str)
    (htags : video.tags = some (TagsJson.arr tags)) (hurl : video.url ≠ [])
    (hfind : findMatchingBookmark video.url bms = some bm) :
    (processVideoFromDatabase apiOk video bms).2 = [(bm.bid, tags)] := by
  have hne : video.url.isEmpty = false := by
    simpa [List.isEmpty_iff] using hurl
  simp only [processVideoFromDatabase, htags, hne, Bool.false_eq_true, if_false, hfind]
  by_cases hapi : apiOk bm.bid tags = true <;> simp [hapi]

/-- C7 witness: a concrete matched record whose stored tag set equals the
bookmark's current tag set (as a set) still gets its update call issued. -/
theorem C7_batch_sync_unconditional_witness :
    (processVideoFromDatabase (fun _ _ => true)
        ⟨str "vidX", ytRecordUrl, some (TagsJson.arr [str "a", str "b"])⟩
        [⟨str "BM9", str "T", ytRecordUrl, [str "b", str "a"]⟩]).2 =
      [(str "BM9", [str "a", str "b"])] :=
  C7_batch_sync_unconditional (fun _ _ => true)
    ⟨str "vidX", ytRecordUrl, some (TagsJson.arr [str "a", str "b"])⟩
    [⟨str "BM9", str "T", ytRecordUrl, [str "b", str "a"]⟩]
    ⟨str "BM9", str "T", ytRecordUrl, [str "b", str "a"]⟩
    [str "a", str "b"] rfl (by decide) (by decide)

/-- Helper: every processed item is dispatched exactly once, whatever its
outcome. -/
theorem processSingleVideo_dispatched (summ : Bookmark → SummOutcome) (now : Str)
    (st : PipelineState) (b : Bookmark) :
    (processSingleVideo summ now st b).dispatched = st.dispatched ++ [b.bid] := by
  cases hs : summ b with
  | thrown m => simp [processSingleVideo, hs]
  | res r => by_cases hr : r.success = true <;> simp [processSingleVideo, hs, hr]

/-- Helper: every processed item settles into exactly one of the
`successful` and `failed` counters. -/
theorem processSingleVideo_counts (summ : Bookmark → SummOutcome) (now : Str)
    (st : PipelineState) (b : Bookmark) :
    (processSingleVideo summ now st b).stats.successful +
        (processSingleVideo summ now st b).stats.failed =
      st.stats.successful + st.stats.failed + 1 := by
  cases hs : summ b with
  | thrown m => simp [processSingleVideo, hs]; omega
  | res r =>
    by_cases hr : r.success = true <;> simp [processSingleVideo, hs, hr] <;> omega

/-- Helper: a settled batch appends its items' bookmark ids to the
dispatch list in order. -/
theorem foldl_dispatched (summ : Bookmark → SummOutcome) (now : Str) (l : List Bookmark) :
    ∀ st : PipelineState,
      (l.foldl (processSingleVideo summ now) st).dispatched =
        st.dispatched ++ l.map (fun b => b.bid) := by
  induction l with
  | nil => intro st; simp
  | cons b t ih =>
    intro st
    rw [List.foldl_cons, ih, processSingleVideo_dispatched]
    simp

/-- Helper: a settled batch adds exactly its size to the sum of the
`successful` and `failed` counters. -/
theorem foldl_counts (summ : Bookmark → SummOutcome) (now : Str) (l : List Bookmark) :
    ∀ st : PipelineState,
      (l.foldl (processSingleVideo summ now) st).stats.successful +
          (l.foldl (processSingleVideo summ now) st).stats.failed =
        st.stats.successful + st.stats.failed + l.length := by
  induction l with
  | nil => intro st; simp
  | cons b t ih =>
    intro st
    rw [List.foldl_cons, ih, processSingleVideo_counts]
    simp
    omega

/-- Helper: with enough fuel, the chunks of a list concatenate back to
the list. -/
theorem chunkFuel_flatten {α : Type} (c : Nat) :
    ∀ (fuel : Nat) (l : List α), l.length ≤ fuel → (chunkFuel c fuel l).flatten = l := by
  intro fuel
  induction fuel with
  | zero =>
    intro l hl
    have : l = [] := List.length_eq_zero.mp (Nat.le_zero.mp hl)
    subst this
    rfl
  | succ fuel ih =>
    intro l hl
    cases l with
    | nil => rfl
    | cons x xs =>
      rw [chunkFuel]
      simp only [List.flatten_cons]
      rw [ih (xs.drop c) (by simp [List.length_drop]; simp at hl; omega)]
      simp [List.take_append_drop]

/-- Helper: with a positive concurrency limit, settling the batches of
the chunked list settles every item of the list in order. -/
theorem processVideosConcurrently_foldl (summ : Bookmark → SummOutcome) (now : Str)
    (videos : List Bookmark) (c : Nat) (st : PipelineState) (hc : 0 < c) :
    processVideosConcurrently summ now videos c st =
      videos.foldl (processSingleVideo summ now) st := by
  obtain ⟨c', rfl⟩ : ∃ k, c = k + 1 := ⟨c - 1, by omega⟩
  unfold processVideosConcurrently chunkArray
  rw [← List.foldl_flatten, chunkFuel_flatten c' videos.length videos (Nat.le_refl _)]

/-- Helper: when the dedup-filtered, truncated candidate list is empty,
the run stops before dispatching and reports the dedup skips. -/
theorem runPipeline_planned_empty (summ : Bookmark → SummOutcome) (now : Str)
    (force : Bool) (maxV c : Nat) (store0 : List PRecord) (bms : List Bookmark)
    (h : plannedVideos force maxV store0 bms = []) :
    runPipeline summ now force maxV c store0 bms =
      ⟨⟨bms.length, (bms.filter (fun b => isVideoUrl b.link)).length, 0, 0, 0,
        if force then 0
        else ((bms.filter (fun b => isVideoUrl b.link)).filter
          (fun b => storeHasBookmark store0 b.bid)).length⟩, store0, [], []⟩ := by
  unfold runPipeline
  by_cases h1 : bms.isEmpty
  · have hb : bms = [] := List.isEmpty_iff.mp h1
    subst hb
    cases force <;> simp [runPipeline]
  · rw [if_neg h1]
    by_cases h2 : (bms.filter (fun b => isVideoUrl b.link)).isEmpty
    · have hv := List.isEmpty_iff.mp h2
      rw [if_pos h2]
      cases force <;> simp [hv]
    · rw [if_neg h2]
      have h3 : ((if force then bms.filter (fun b => isVideoUrl b.link)
          else (bms.filter (fun b => isVideoUrl b.link)).filter
            (fun b => !storeHasBookmark store0 b.bid)).take maxV).isEmpty := by
        rw [show (if force then bms.filter (fun b => isVideoUrl b.link)
          else (bms.filter (fun b => isVideoUrl b.link)).filter
            (fun b => !storeHasBookmark store0 b.bid)).take maxV =
              plannedVideos force maxV store0 bms from rfl, h]
        rfl
      rw [if_pos h3]
      have h0 : (plannedVideos force maxV store0 bms).length = 0 := by rw [h]; rfl
      simp only [plannedVideos] at h0
      rw [h0]

/-- Helper: when the dedup-filtered, truncated candidate list is not
empty, the run settles exactly that list from the initial accumulator. -/
theorem runPipeline_main (summ : Bookmark → SummOutcome) (now : Str)
    (force : Bool) (maxV c : Nat) (store0 : List PRecord) (bms : List Bookmark)
    (h : ¬ plannedVideos force maxV store0 bms = []) :
    runPipeline summ now force maxV c store0 bms =
      processVideosConcurrently summ now (plannedVideos force maxV store0 bms) c
        ⟨⟨bms.length, (bms.filter (fun b => isVideoUrl b.link)).length,
          (plannedVideos force maxV store0 bms).length, 0, 0,
          if force then 0
          else ((bms.filter (fun b => isVideoUrl b.link)).filter
            (fun b => storeHasBookmark store0 b.bid)).length⟩, store0, [], []⟩ := by
  have h1 : ¬ bms.isEmpty := by
    intro hb
    exact h (by simp [plannedVideos, List.isEmpty_iff.mp hb])
  have h2 : ¬ (bms.filter (fun b => isVideoUrl b.link)).isEmpty := by
    intro hv
    refine h ?_
    have := List.isEmpty_iff.mp hv
    cases force <;> simp [plannedVideos, this]
  unfold runPipeline
  rw [if_neg h1, if_neg h2]
  have h3 : ¬ ((if force then bms.filter (fun b => isVideoUrl b.link)
      else (bms.filter (fun b => isVideoUrl b.link)).filter
        (fun b => !storeHasBookmark store0 b.bid)).take maxV).isEmpty := by
    rw [show (if force then bms.filter (fun b => isVideoUrl b.link)
      else (bms.filter (fun b => isVideoUrl b.link)).filter
        (fun b => !storeHasBookmark store0 b.bid)).take maxV =
          plannedVideos force maxV store0 bms from rfl]
    simpa [List.isEmpty_iff] using h
  rw [if_neg h3]
  rfl

/-- C1: batch failure isolation — with a positive concurrency limit,
every dedup-filtered candidate is dispatched and settles regardless of
any other item's failure (the dispatch list is exactly the planned list,
for every summarizer behaviour including throwing ones); every settled
item is counted in exactly one of the `successful` and `failed` counters,
so the run returns its statistics normally with `successful + failed`
covering all dispatched items; and in the concrete five-candidate
scenario whose third summarizer call always throws, the run ends with
four successes, one failure, all five items dispatched, and persisted
records exactly for items 1, 2, 4 and 5. -/
theorem C1_batch_failure_isolation :
    (∀ (summ : Bookmark → SummOutcome) (now : Str) (force : Bool)
        (maxV c : Nat) (store0 : List PRecord) (bms : List Bookmark), 0 < c →
      (runPipeline summ now force maxV c store0 bms).dispatched =
        (plannedVideos force maxV store0 bms).map (fun b => b.bid)) ∧
    (∀ (summ : Bookmark → SummOutcome) (now : Str) (force : Bool)
        (maxV c : Nat) (store0 : List PRecord) (bms : List Bookmark), 0 < c →
      (runPipeline summ now force maxV c store0 bms).stats.successful +
          (runPipeline summ now force maxV c store0 bms).stats.failed =
        (plannedVideos force maxV store0 bms).length) ∧
    ((runPipeline scenarioSumm (str "now") false 10 3 []
        [sb1, sb2, sb3, sb4, sb5]).stats.successful = 4 ∧
      (runPipeline scenarioSumm (str "now") false 10 3 []
        [sb1, sb2, sb3, sb4, sb5]).stats.failed = 1 ∧
      (runPipeline scenarioSumm (str "now") false 10 3 []
        [sb1, sb2, sb3, sb4, sb5]).dispatched =
        [str "B1", str "B2", str "B3", str "B4", str "B5"] ∧
      (runPipeline scenarioSumm (str "now") false 10 3 []
        [sb1, sb2, sb3, sb4, sb5]).store.map
          (fun r => (r.video_id, r.raindrop_bookmark_id)) =
        [(str "vid00000005", str "B5"), (str "vid00000004", str "B4"),
          (str "vid00000002", str "B2"), (str "vid00000001", str "B1")]) := by
  refine ⟨?_, ?_, ?_⟩
  · intro summ now force maxV c store0 bms hc
    by_cases hp : plannedVideos force maxV store0 bms = []
    · rw [runPipeline_planned_empty summ now force maxV c store0 bms hp, hp]
      rfl
    · rw [runPipeline_main summ now force maxV c store0 bms hp,
        processVideosConcurrently_foldl summ now _ c _ hc, foldl_dispatched]
      rfl
  · intro summ now force maxV c store0 bms hc
    by_cases hp : plannedVideos force maxV store0 bms = []
    · rw [runPipeline_planned_empty summ now force maxV c store0 bms hp, hp]
      rfl
    · rw [runPipeline_main summ now force maxV c store0 bms hp,
        processVideosConcurrently_foldl summ now _ c _ hc, foldl_counts]
      simp
  · set_option maxRecDepth 4000 in decide

/-- C1 witness: the dispatch-list characterization applied at the
concrete scenario inputs. -/
theorem C1_batch_failure_isolation_witness :
    (runPipeline scenarioSumm (str "now") false 10 3 []
        [sb1, sb2, sb3, sb4, sb5]).dispatched =
      (plannedVideos false 10 [] [sb1, sb2, sb3, sb4, sb5]).map (fun b => b.bid) :=
  C1_batch_failure_isolation.1 scenarioSumm (str "now") false 10 3 []
    [sb1, sb2, sb3, sb4, sb5] (by decide)

/-- Helper: a persisted record survives the settling of items none of
which carries its canonical video id (only an upsert on the same id can
displace it). -/
theorem fold_store_survive (summ : Bookmark → SummOutcome) (now : Str) (l : List Bookmark) :
    ∀ (st : PipelineState) (rec : PRecord), rec ∈ st.store →
      (∀ b ∈ l, ¬ extractVideoId b.link = some rec.video_id) →
      rec ∈ (l.foldl (processSingleVideo summ now) st).store := by
  induction l with
  | nil => intro st rec h _; simpa using h
  | cons b t ih =>
    intro st rec hrec hne
    rw [List.foldl_cons]
    refine ih (processSingleVideo summ now st b) rec ?_
      (fun b' hb' => hne b' (List.mem_cons_of_mem _ hb'))
    cases hs : summ b with
    | thrown m => simpa [processSingleVideo, hs] using hrec
    | res r =>
      by_cases hr : r.success = true
      · simp only [processSingleVideo, hs, hr, if_true]
        cases hv : extractVideoId b.link with
        | none => simpa [hv] using hrec
        | some v =>
          cases hf : r.outputFile with
          | none => simpa [hv, hf] using hrec
          | some f =>
            have hvne : ¬ rec.video_id = v := by
              intro he
              exact hne b (List.mem_cons_self b t) (by rw [hv, he])
            simp [hv, hf, markVideoProcessed, List.mem_filter, hrec, hvne]
      · simpa [processSingleVideo, hs, hr] using hrec

/-- Helper: when every item of a list summarizes successfully with an
output file and an extractable video id, and the items carry pairwise
distinct video ids, every item's bookmark id is present in the store
after the list settles. -/
theorem fold_store_bids (summ : Bookmark → SummOutcome) (now : Str) (l : List Bookmark) :
    ∀ st : PipelineState,
      (∀ b ∈ l, ∃ r, summ b = SummOutcome.res r ∧ r.success = true ∧ r.outputFile ≠ none) →
      (∀ b ∈ l, extractVideoId b.link ≠ none) →
      ((l.map (fun b => extractVideoId b.link)).Nodup) →
      ∀ b ∈ l, storeHasBookmark (l.foldl (processSingleVideo summ now) st).store b.bid = true := by
  induction l with
  | nil => intro st _ _ _ b hb; simp at hb
  | cons b0 t ih =>
    intro st hok hvid hnd b hb
    rw [List.foldl_cons]
    rcases List.mem_cons.mp hb with rfl | hbt
    · obtain ⟨r, hs, hr, hf⟩ := hok b (List.mem_cons_self b t)
      obtain ⟨f, hf'⟩ := Option.ne_none_iff_exists'.mp hf
      obtain ⟨v, hv⟩ := Option.ne_none_iff_exists'.mp (hvid b (List.mem_cons_self b t))
      have hstep : (⟨v, b.link, b.title, f, now, b.bid⟩ : PRecord) ∈
          (processSingleVideo summ now st b).store := by
        simp [processSingleVideo, hs, hr, hv, hf', markVideoProcessed]
      have hne : ∀ b' ∈ t, ¬ extractVideoId b'.link = some v := by
        intro b' hb' he
        have hhead : extractVideoId b.link ∈ t.map (fun x => extractVideoId x.link) := by
          rw [hv, ← he]
          exact List.mem_map_of_mem _ hb'
        simp only [List.map_cons, List.nodup_cons] at hnd
        exact hnd.1 hhead
      have hsurv := fold_store_survive summ now t (processSingleVideo summ now st b)
        ⟨v, b.link, b.title, f, now, b.bid⟩ hstep hne
      rw [storeHasBookmark, List.any_eq_true]
      exact ⟨_, hsurv, by simp⟩
    · refine ih (processSingleVideo summ now st b0)
        (fun b' hb' => hok b' (List.mem_cons_of_mem _ hb'))
        (fun b' hb' => hvid b' (List.mem_cons_of_mem _ hb')) ?_ b hbt
      simp only [List.map_cons, List.nodup_cons] at hnd
      exact hnd.2

/-- Helper: when every item of a list summarizes successfully, settling
the list adds exactly its length to the `successful` counter. -/
theorem fold_success_count (summ : Bookmark → SummOutcome) (now : Str) (l : List Bookmark) :
    ∀ st : PipelineState,
      (∀ b ∈ l, ∃ r, summ b = SummOutcome.res r ∧ r.success = true) →
      (l.foldl (processSingleVideo summ now) st).stats.successful =
        st.stats.successful + l.length := by
  induction l with
  | nil => intro st _; simp
  | cons b t ih =>
    intro st hok
    rw [List.foldl_cons, ih _ (fun b' hb' => hok b' (List.mem_cons_of_mem _ hb'))]
    obtain ⟨r, hs, hr⟩ := hok b (List.mem_cons_self b t)
    have : (processSingleVideo summ now st b).stats.successful = st.stats.successful + 1 := by
      simp [processSingleVideo, hs, hr]
    rw [this]
    simp
    omega


/-- Helper: after a fully persisted settling of the video candidates
from any starting state, a second non-force run over the same bookmarks
dispatches nothing, succeeds on nothing, and skips every video
candidate. -/
theorem run2_after_fold (summ summ2 : Bookmark → SummOutcome) (now now2 : Str)
    (maxV c2 : Nat) (bms : List Bookmark) (st : PipelineState)
    (hok : ∀ b ∈ bms.filter (fun b => isVideoUrl b.link),
      ∃ r, summ b = SummOutcome.res r ∧ r.success = true ∧ r.outputFile ≠ none)
    (hvid : ∀ b ∈ bms.filter (fun b => isVideoUrl b.link), extractVideoId b.link ≠ none)
    (hnd : ((bms.filter (fun b => isVideoUrl b.link)).map
      (fun b => extractVideoId b.link)).Nodup) :
    (runPipeline summ2 now2 false maxV c2
        ((bms.filter (fun b => isVideoUrl b.link)).foldl
          (processSingleVideo summ now) st).store bms).dispatched = [] ∧
    (runPipeline summ2 now2 false maxV c2
        ((bms.filter (fun b => isVideoUrl b.link)).foldl
          (processSingleVideo summ now) st).store bms).stats.successful = 0 ∧
    (runPipeline summ2 now2 false maxV c2
        ((bms.filter (fun b => isVideoUrl b.link)).foldl
          (processSingleVideo summ now) st).store bms).stats.skipped =
      (bms.filter (fun b => isVideoUrl b.link)).length := by
  have hbids := fold_store_bids summ now (bms.filter (fun b => isVideoUrl b.link)) st
    hok hvid hnd
  have hnil : (bms.filter (fun b => isVideoUrl b.link)).filter
      (fun b => !storeHasBookmark
        ((bms.filter (fun b => isVideoUrl b.link)).foldl
          (processSingleVideo summ now) st).store b.bid) = [] :=
    List.filter_eq_nil_iff.mpr (fun b hb => by simp [hbids b hb])
  have hp2 : plannedVideos false maxV
      ((bms.filter (fun b => isVideoUrl b.link)).foldl
        (processSingleVideo summ now) st).store bms = [] := by
    rw [plannedVideos]
    simp only [Bool.false_eq_true, ite_false]
    rw [hnil]
    simp
  rw [runPipeline_planned_empty summ2 now2 false maxV c2 _ bms hp2]
  refine ⟨rfl, rfl, ?_⟩
  simp only [Bool.false_eq_true, ite_false]
  exact congrArg List.length (List.filter_eq_self.mpr (fun b hb => hbids b hb))

/-- C2 (amended): idempotent dedup for a fully persisted first run — when
the store starts empty, the video candidates fit within the max-items
budget, every first-run summarizer call succeeds with an output file and
an extractable video id, and the candidates carry pairwise distinct video
ids, then the second run (with the force flag unset, any summarizer and
any concurrency) dispatches zero items, its succeeded count is 0, and its
skipped count equals the first run's succeeded count. -/
theorem C2_idempotent_dedup_amended
    (summ summ2 : Bookmark → SummOutcome) (now now2 : Str) (maxV c c2 : Nat)
    (bms : List Bookmark) (hc : 0 < c)
    (hlen : (bms.filter (fun b => isVideoUrl b.link)).length ≤ maxV)
    (hok : ∀ b ∈ bms.filter (fun b => isVideoUrl b.link),
      ∃ r, summ b = SummOutcome.res r ∧ r.success = true ∧ r.outputFile ≠ none)
    (hvid : ∀ b ∈ bms.filter (fun b => isVideoUrl b.link), extractVideoId b.link ≠ none)
    (hnd : ((bms.filter (fun b => isVideoUrl b.link)).map
      (fun b => extractVideoId b.link)).Nodup) :
    (runPipeline summ2 now2 false maxV c2
        (runPipeline summ now false maxV c [] bms).store bms).dispatched = [] ∧
    (runPipeline summ2 now2 false maxV c2
        (runPipeline summ now false maxV c [] bms).store bms).stats.successful = 0 ∧
    (runPipeline summ2 now2 false maxV c2
        (runPipeline summ now false maxV c [] bms).store bms).stats.skipped =
      (runPipeline summ now false maxV c [] bms).stats.successful := by
  by_cases hv0 : bms.filter (fun b => isVideoUrl b.link) = []
  · have hp1 : plannedVideos false maxV [] bms = [] := by
      simp [plannedVideos, hv0]
    rw [runPipeline_planned_empty summ now false maxV c [] bms hp1]
    have hp2 : plannedVideos false maxV ([] : List PRecord) bms = [] := by
      simp [plannedVideos, hv0]
    rw [runPipeline_planned_empty summ2 now2 false maxV c2 [] bms hp2]
    simp [hv0]
  · have hfilter1 : (bms.filter (fun b => isVideoUrl b.link)).filter
        (fun b => !storeHasBookmark [] b.bid) = bms.filter (fun b => isVideoUrl b.link) :=
      List.filter_eq_self.mpr (fun b _ => rfl)
    have hp1 : plannedVideos false maxV [] bms = bms.filter (fun b => isVideoUrl b.link) := by
      rw [plannedVideos]
      simp only [Bool.false_eq_true, ite_false, hfilter1]
      exact List.take_of_length_le hlen
    have hp1ne : ¬ plannedVideos false maxV [] bms = [] := by rw [hp1]; exact hv0
    rw [runPipeline_main summ now false maxV c [] bms hp1ne,
      processVideosConcurrently_foldl summ now _ c _ hc, hp1]
    obtain ⟨h1, h2, h3⟩ := run2_after_fold summ summ2 now now2 maxV c2 bms
      ⟨⟨bms.length, (bms.filter (fun b => isVideoUrl b.link)).length,
        (bms.filter (fun b => isVideoUrl b.link)).length, 0, 0,
        if false = true then 0
        else ((bms.filter (fun b => isVideoUrl b.link)).filter
          (fun b => storeHasBookmark [] b.bid)).length⟩, [], [], []⟩
      hok hvid hnd
    refine ⟨h1, h2, ?_⟩
    rw [h3, fold_success_count summ now _ _
      (fun b hb => (hok b hb).imp (fun r hr => ⟨hr.1, hr.2.1⟩))]
    simp

/-- C2 counterexample: the claim as stated fails — one video candidate
whose summarizer call always reports failure persists no record in run 1,
so run 2 (force unset, same candidate set) dispatches it again instead of
dispatching zero items. -/
theorem C2_idempotent_dedup_counterexample :
    (runPipeline failSumm (str "now") false 10 3
        (runPipeline failSumm (str "now") false 10 3 [] [sb1]).store [sb1]).dispatched ≠ [] := by
  set_option maxRecDepth 4000 in decide

/-- C2 witness: the amended dedup idempotence applied at a concrete
three-candidate set whose first run fully succeeds. -/
theorem C2_idempotent_dedup_witness :
    (runPipeline scenarioSumm (str "t2") false 10 3
        (runPipeline scenarioSumm (str "t1") false 10 3 [] [sb1, sb2, sb4]).store
        [sb1, sb2, sb4]).dispatched = [] ∧
    (runPipeline scenarioSumm (str "t2") false 10 3
        (runPipeline scenarioSumm (str "t1") false 10 3 [] [sb1, sb2, sb4]).store
        [sb1, sb2, sb4]).stats.successful = 0 ∧
    (runPipeline scenarioSumm (str "t2") false 10 3
        (runPipeline scenarioSumm (str "t1") false 10 3 [] [sb1, sb2, sb4]).store
        [sb1, sb2, sb4]).stats.skipped =
      (runPipeline scenarioSumm (str "t1") false 10 3 [] [sb1, sb2, sb4]).stats.successful :=
  C2_idempotent_dedup_amended scenarioSumm scenarioSumm (str "t1") (str "t2") 10 3 3
    [sb1, sb2, sb4] (by decide) (by decide)
    (by
      intro b hb
      rw [(by decide : List.filter (fun b => isVideoUrl b.link) [sb1, sb2, sb4] =
        [sb1, sb2, sb4])] at hb
      refine ⟨⟨true, some (str "out.md"), some [], none⟩, ?_, rfl, by simp⟩
      simp only [List.mem_cons, List.not_mem_nil, or_false] at hb
      rcases hb with rfl | rfl | rfl <;> rfl)
    (by decide) (by decide)

/-- Helper: the strip of a marker absent from the list is the identity. -/
theorem stripFrom_not_mem (c : Char) : ∀ l : Str, c ∉ l → stripFrom c l = l := by
  intro l
  induction l with
  | nil => intro _; rfl
  | cons x t ih =>
    intro h
    have hxc : ¬ x = c := fun he => h (he ▸ List.mem_cons_self x t)
    rw [stripFrom, if_neg (by simp [hxc]),
      ih (fun hm => h (List.mem_cons_of_mem x hm))]

/-- Helper: the strip passes over a first part free of the marker. -/
theorem stripFrom_append_not_mem (c : Char) :
    ∀ (a b : Str), c ∉ a → stripFrom c (a ++ b) = a ++ stripFrom c b := by
  intro a
  induction a with
  | nil => intro b _; rfl
  | cons x t ih =>
    intro b ha
    have hxc : ¬ x = c := fun he => ha (he ▸ List.mem_cons_self x t)
    rw [List.cons_append, stripFrom, if_neg (by simp [hxc]),
      ih b (fun hm => ha (List.mem_cons_of_mem x hm)), List.cons_append]

/-- Helper: the strip fires at a leading marker whose tail holds no line
terminator, removing everything. -/
theorem stripFrom_cons_fire (c : Char) (t : Str) (h : t.any isLineTerm = false) :
    stripFrom c (c :: t) = [] := by
  rw [stripFrom, if_pos]
  simp [h]

/-- Helper: the strip returns a prefix of its input. -/
theorem prefix_stripFrom (c : Char) : ∀ l : Str, stripFrom c l <+: l := by
  intro l
  induction l with
  | nil => exact List.prefix_refl []
  | cons x t ih =>
    rw [stripFrom]
    by_cases h : (decide (x = c) && !(t.any isLineTerm)) = true
    · rw [if_pos h]
      exact List.nil_prefix
    · rw [if_neg h]
      exact List.cons_prefix_cons.mpr ⟨rfl, ih⟩

/-- Helper: freedom from a character test transfers to prefixes. -/
theorem any_false_of_prefix {p : Char → Bool} (y u : Str) (hpre : y <+: u)
    (hu : u.any p = false) : y.any p = false := by
  rw [List.any_eq_false] at hu ⊢
  exact fun x hx => hu x (hpre.subset hx)

/-- Helper: a valid code point round-trips through `Char.ofNat`. -/
theorem toNat_char_ofNat (n : Nat) (h : n.isValidChar) : (Char.ofNat n).toNat = n := by
  rw [Char.ofNat, dif_pos h]
  rfl

/-- Helper: lowercasing maps no character onto a line terminator and
leaves every line terminator unchanged. -/
theorem isLineTerm_toLower (c : Char) : isLineTerm (Char.toLower c) = isLineTerm c := by
  rw [Char.toLower]
  by_cases h : c.toNat ≥ 65 ∧ c.toNat ≤ 90
  · rw [if_pos h]
    have hv : (c.toNat + 32).isValidChar := Or.inl (by omega)
    have ht : (Char.ofNat (c.toNat + 32)).toNat = c.toNat + 32 := toNat_char_ofNat _ hv
    have h1 : isLineTerm c = false := by
      have hc : c ≠ '\n' ∧ c ≠ '\r' ∧ c ≠ '\u2028' ∧ c ≠ '\u2029' := by
        refine ⟨?_, ?_, ?_, ?_⟩ <;> (rintro rfl; exact absurd h (by decide))
      simp [isLineTerm, hc.1, hc.2.1, hc.2.2.1, hc.2.2.2]
    have hne : ∀ d : Char, d.toNat ≠ c.toNat + 32 → Char.ofNat (c.toNat + 32) ≠ d := by
      intro d hd he
      exact hd (by rw [← he, ht])
    have h2 : isLineTerm (Char.ofNat (c.toNat + 32)) = false := by
      have e1 : ('\n').toNat = 10 := rfl
      have e2 : ('\r').toNat = 13 := rfl
      have e3 : ('\u2028').toNat = 8232 := rfl
      have e4 : ('\u2029').toNat = 8233 := rfl
      simp [isLineTerm, hne '\n' (by rw [e1]; omega), hne '\r' (by rw [e2]; omega),
        hne '\u2028' (by rw [e3]; omega), hne '\u2029' (by rw [e4]; omega)]
    rw [h1, h2]
  · rw [if_neg h]

/-- Helper: lowercasing preserves freedom from line terminators. -/
theorem any_isLineTerm_lowerStr (l : Str) :
    (lowerStr l).any isLineTerm = l.any isLineTerm := by
  induction l with
  | nil => rfl
  | cons c t ih =>
    rw [lowerStr, List.map_cons, List.any_cons, isLineTerm_toLower, List.any_cons,
      show List.map Char.toLower t = lowerStr t from rfl, ih]

/-- Helper: a pattern that is not a prefix of `a` and does not extend `a`
is not a prefix of anything beginning with `a`. -/
theorem not_prefix_of_disagree (pat a X : Str) (h1 : ¬ pat <+: a) (h2 : ¬ a <+: pat) :
    ¬ pat <+: a ++ X := fun h =>
  (List.prefix_or_prefix_of_prefix h (List.prefix_append a X)).elim h1 h2

/-- Helper: the possible shapes of a prefix of a trailing-slash part
followed by a query part. -/
theorem prefix_forms (r s q : Str) (hs : SlashPart s) (hq : q = [] ∨ ∃ t, q = '?' :: t)
    (hr : r <+: s ++ q) :
    r = [] ∨ r = ['/'] ∨ (∃ t, r = '?' :: t) ∨ (∃ t, r = '/' :: '?' :: t) := by
  rcases hs with rfl | rfl <;> rcases hq with rfl | ⟨t, rfl⟩
  · exact Or.inl (List.prefix_nil.mp hr)
  · cases r with
    | nil => exact Or.inl rfl
    | cons c r' =>
      rw [List.nil_append, List.cons_prefix_cons] at hr
      exact Or.inr (Or.inr (Or.inl ⟨r', by rw [hr.1]⟩))
  · cases r with
    | nil => exact Or.inl rfl
    | cons c r' =>
      rw [show (str "/") ++ ([] : Str) = ['/'] from rfl, List.cons_prefix_cons] at hr
      have : r' = [] := List.prefix_nil.mp hr.2
      exact Or.inr (Or.inl (by rw [hr.1, this]))
  · cases r with
    | nil => exact Or.inl rfl
    | cons c r' =>
      rw [show (str "/") ++ ('?' :: t) = '/' :: '?' :: t from rfl,
        List.cons_prefix_cons] at hr
      cases r' with
      | nil => exact Or.inr (Or.inl (by rw [hr.1]))
      | cons c2 r'' =>
        rw [List.cons_prefix_cons] at hr
        exact Or.inr (Or.inr (Or.inr ⟨r'', by rw [hr.1, hr.2.1]⟩))

/-- Helper: none of the protocol or `www.` literals can be a prefix of a
well-behaved core followed by its trailing-slash and query parts, unless
it is already a prefix of the core. -/
theorem pat_not_prefix_core (pat core s q : Str)
    (hpat : pat = str "https://" ∨ pat = str "http://" ∨ pat = str "www.")
    (hlast : core.getLast? ≠ some '/')
    (hs : SlashPart s) (hq : q = [] ∨ ∃ t, q = '?' :: t)
    (hnp : ¬ pat <+: core) : ¬ pat <+: core ++ (s ++ q) := by
  intro h
  rcases List.prefix_or_prefix_of_prefix h (List.prefix_append core (s ++ q)) with hc | hcp
  · exact hnp hc
  · obtain ⟨rest, hrest⟩ := hcp
    rw [← hrest, List.prefix_append_right_inj] at h
    rcases prefix_forms rest s q hs hq h with rfl | rfl | ⟨t, rfl⟩ | ⟨t, rfl⟩
    · exact hnp (by rw [← hrest]; simp)
    · rcases hpat with rfl | rfl | rfl
      · have hcval : core = str "https:/" := by
          have := congrArg List.dropLast hrest
          rwa [List.dropLast_concat] at this
        exact hlast (by rw [hcval]; rfl)
      · have hcval : core = str "http:/" := by
          have := congrArg List.dropLast hrest
          rwa [List.dropLast_concat] at this
        exact hlast (by rw [hcval]; rfl)
      · have : '/' ∈ str "www." := by
          rw [← hrest]
          exact List.mem_append.mpr (Or.inr (List.mem_cons_self _ _))
        exact absurd this (by decide)
    · have hqm : '?' ∈ pat := by
        rw [← hrest]
        exact List.mem_append.mpr (Or.inr (List.mem_cons_self _ _))
      rcases hpat with rfl | rfl | rfl <;> exact absurd hqm (by decide)
    · have hqm : '?' ∈ pat := by
        rw [← hrest]
        exact List.mem_append.mpr (Or.inr (List.mem_cons_of_mem _ (List.mem_cons_self _ _)))
      rcases hpat with rfl | rfl | rfl <;> exact absurd hqm (by decide)

/-- Helper: the query strips return exactly the core and slash once the
tail is empty or starts the query with no line terminator after it. -/
theorem strips_tail (core s : Str) (hamp : '&' ∉ core) (hques : '?' ∉ core)
    (hs : SlashPart s) :
    ∀ z : Str, (z = [] ∨ ∃ u, z = '?' :: u ∧ u.any isLineTerm = false) →
      stripFrom '?' (stripFrom '&' (core ++ (s ++ z))) = core ++ s := by
  have hs' : ∀ c ∈ s, c = '/' := by
    rcases hs with rfl | rfl
    · intro c hc; simp at hc
    · intro c hc
      rw [show (str "/") = ['/'] from rfl] at hc
      simpa using hc
  have hampS : '&' ∉ core ++ s := by
    intro hm
    rcases List.mem_append.mp hm with hm | hm
    · exact hamp hm
    · exact absurd (hs' _ hm) (by decide)
  have hquesS : '?' ∉ core ++ s := by
    intro hm
    rcases List.mem_append.mp hm with hm | hm
    · exact hques hm
    · exact absurd (hs' _ hm) (by decide)
  intro z hz
  rcases hz with rfl | ⟨u, rfl, hu⟩
  · rw [show core ++ (s ++ ([] : Str)) = core ++ s from by simp]
    rw [stripFrom_not_mem '&' _ hampS, stripFrom_not_mem '?' _ hquesS]
  · rw [show core ++ (s ++ ('?' :: u)) = (core ++ s) ++ ('?' :: u) from by simp]
    rw [stripFrom_append_not_mem '&' _ _ hampS]
    have hq1 : stripFrom '&' ('?' :: u) = '?' :: stripFrom '&' u := by
      rw [stripFrom, if_neg (by simp)]
    rw [hq1, stripFrom_append_not_mem '?' _ _ hquesS]
    have hy : (stripFrom '&' u).any isLineTerm = false :=
      any_false_of_prefix _ u (prefix_stripFrom '&' u) hu
    rw [stripFrom_cons_fire '?' _ hy, List.append_nil]

/-- Helper: the last three normalization steps on a decomposed URL whose
query holds no line terminator. -/
theorem final_strips (core s y : Str) (hs : SlashPart s)
    (hy : y = [] ∨ ∃ t, y = '?' :: t ∧ t.any isLineTerm = false)
    (hamp : '&' ∉ core) (hques : '?' ∉ core) (hlast : core.getLast? ≠ some '/') :
    stripFrom '?' (stripFrom '&' (stripTrailingSlash (core ++ (s ++ y)))) =
      if y = [] then core else core ++ s := by
  rcases hy with rfl | ⟨t, rfl, ht⟩
  · rw [if_pos rfl]
    rcases hs with rfl | rfl
    · simp only [List.nil_append, List.append_nil]
      rw [stripTrailingSlash, if_neg hlast]
      rw [stripFrom_not_mem '&' _ hamp, stripFrom_not_mem '?' _ hques]
    · rw [show (str "/") = ['/'] from rfl, List.append_nil]
      rw [stripTrailingSlash, if_pos, List.dropLast_concat]
      · rw [stripFrom_not_mem '&' _ hamp, stripFrom_not_mem '?' _ hques]
      · rw [List.getLast?_append_of_ne_nil _ (by simp)]
        rfl
  · rw [if_neg (by simp)]
    by_cases hsl : (core ++ (s ++ ('?' :: t))).getLast? = some '/'
    · rw [stripTrailingSlash, if_pos hsl]
      have hdrop : (core ++ (s ++ ('?' :: t))).dropLast =
          core ++ (s ++ ('?' :: t).dropLast) := by
        rw [List.dropLast_append_of_ne_nil _ (by simp),
          List.dropLast_append_of_ne_nil _ (by simp)]
      rw [hdrop]
      apply strips_tail core s hamp hques hs
      cases t with
      | nil => exact Or.inl rfl
      | cons a t' =>
        refine Or.inr ⟨(a :: t').dropLast, List.dropLast_cons₂, ?_⟩
        have hpre : (a :: t').dropLast <+: (a :: t') := by
          rw [List.dropLast_eq_take]
          exact List.take_prefix _ _
        exact any_false_of_prefix _ _ hpre ht
    · rw [stripTrailingSlash, if_neg hsl]
      exact strips_tail core s hamp hques hs ('?' :: t) (Or.inr ⟨t, rfl, ht⟩)

/-- Helper: normalization of a decomposed URL — the protocol, `www.`
prefix and query are stripped and a trailing slash survives exactly when
a query followed it. -/
theorem normalizeUrl_decomp (p w core s q : Str)
    (hp : ProtoPart p) (hw : WwwPart w) (hs : SlashPart s) (hq : QueryPart q)
    (hqnl : q.any isLineTerm = false) (hcore : CoreOk core) :
    normalizeUrl (p ++ (w ++ (core ++ (s ++ q)))) =
      if q = [] then core else core ++ s := by
  obtain ⟨hc0, hclow, hcamp, hcq, hcns, hcnh, hcnw, hclast⟩ := hcore
  have hlq : lowerStr q = [] ∨ ∃ t, lowerStr q = '?' :: t ∧ t.any isLineTerm = false := by
    rcases hq with rfl | ⟨t, rfl⟩
    · exact Or.inl rfl
    · refine Or.inr ⟨lowerStr t, rfl, ?_⟩
      rw [any_isLineTerm_lowerStr]
      rw [List.any_cons, show isLineTerm '?' = false from rfl, Bool.false_or] at hqnl
      exact hqnl
  have hlqw : lowerStr q = [] ∨ ∃ t, lowerStr q = '?' :: t :=
    hlq.imp id (fun h => h.imp (fun t ht => ht.1))
  have hlow : lowerStr (p ++ (w ++ (core ++ (s ++ q)))) =
      p ++ (w ++ (core ++ (s ++ lowerStr q))) := by
    have e1 : lowerStr p = p := by rcases hp with rfl | rfl | rfl <;> decide
    have e2 : lowerStr w = w := by rcases hw with rfl | rfl <;> decide
    have e3 : lowerStr s = s := by rcases hs with rfl | rfl <;> decide
    simp only [lowerStr, List.map_append] at e1 e2 e3 hclow ⊢
    rw [e1, e2, e3, hclow]
  have hsp : stripProto (p ++ (w ++ (core ++ (s ++ lowerStr q)))) =
      w ++ (core ++ (s ++ lowerStr q)) := by
    have hinner : ∀ pat : Str,
        pat = str "https://" ∨ pat = str "http://" →
        ¬ pat <+: core → ¬ pat <+: w ++ (core ++ (s ++ lowerStr q)) := by
      intro pat hpatform hpatcore
      rcases hw with rfl | rfl
      · rw [List.nil_append]
        exact pat_not_prefix_core pat core s (lowerStr q)
          (hpatform.elim Or.inl (fun h => Or.inr (Or.inl h))) hclast hs hlqw hpatcore
      · refine not_prefix_of_disagree pat (str "www.") _ ?_ ?_
        · rcases hpatform with rfl | rfl <;> decide
        · rcases hpatform with rfl | rfl <;> decide
    rcases hp with rfl | rfl | rfl
    · rw [List.nil_append, stripProto, if_neg, if_neg]
      · rw [List.isPrefixOf_iff_prefix]
        exact hinner (str "http://") (Or.inr rfl) hcnh
      · rw [List.isPrefixOf_iff_prefix]
        exact hinner (str "https://") (Or.inl rfl) hcns
    · rw [stripProto, if_neg, if_pos]
      · exact List.drop_left (str "http://") _
      · rw [List.isPrefixOf_iff_prefix]
        exact List.prefix_append _ _
      · rw [List.isPrefixOf_iff_prefix]
        exact not_prefix_of_disagree _ _ _ (by decide) (by decide)
    · rw [stripProto, if_pos]
      · exact List.drop_left (str "https://") _
      · rw [List.isPrefixOf_iff_prefix]
        exact List.prefix_append _ _
  have hsw : stripWww (w ++ (core ++ (s ++ lowerStr q))) = core ++ (s ++ lowerStr q) := by
    rcases hw with rfl | rfl
    · rw [List.nil_append, stripWww, if_neg]
      rw [List.isPrefixOf_iff_prefix]
      exact pat_not_prefix_core (str "www.") core s (lowerStr q)
        (Or.inr (Or.inr rfl)) hclast hs hlqw hcnw
    · rw [stripWww, if_pos]
      · exact List.drop_left (str "www.") _
      · rw [List.isPrefixOf_iff_prefix]
        exact List.prefix_append _ _
  have hfin := final_strips core s (lowerStr q) hs hlq hcamp hcq hclast
  rw [normalizeUrl, hlow, hsp, hsw, hfin]
  rcases hq with rfl | ⟨t, rfl⟩
  · rfl
  · rw [if_neg (by simp [lowerStr]), if_neg (by simp)]

/-- Helper: the matcher finds a result whenever some listed bookmark
satisfies the URL-match or the id-fallback condition. -/
theorem findMatchingBookmark_isSome (url : Str) (bms : List Bookmark) (bm : Bookmark)
    (hmem : bm ∈ bms)
    (hmatch : normalizeUrl bm.link = normalizeUrl url ∨
      ((tuExtractVideoId url).isSome = true ∧
        tuExtractVideoId url = tuExtractVideoId bm.link)) :
    (findMatchingBookmark url bms).isSome = true := by
  induction bms with
  | nil => simp at hmem
  | cons b0 rest ih =>
    rw [findMatchingBookmark]
    by_cases h1 : normalizeUrl b0.link = normalizeUrl url
    · rw [if_pos h1]; rfl
    · rw [if_neg h1]
      by_cases h2 : (tuExtractVideoId url).isSome = true ∧
          tuExtractVideoId url = tuExtractVideoId b0.link
      · rw [if_pos h2]; rfl
      · rw [if_neg h2]
        rcases List.mem_cons.mp hmem with rfl | hmem'
        · rcases hmatch with hm | hm
          · exact absurd hm h1
          · exact absurd hm h2
        · exact ih hmem'

/-- C6 (amended): batch tag-sync matching — two URLs sharing a
well-behaved core and differing only in protocol, a leading `www.`
prefix, a trailing slash, or a query string are matched, provided the
query strings contain no line terminator (the code strips a query with
`.replace(/&.*$/)` / `.replace(/\?.*$/)`, whose `.` excludes line
terminators and whose `$` is end of input, so a query holding a line
terminator is not stripped) and neither URL carries a trailing slash
directly followed by a nonempty query (the code strips the trailing
slash before the query, so in that one shape the slash survives
normalization and only the id fallback can match); when the normalized
URLs differ, a bookmark whose extracted canonical video id equals the
record URL's id is still matched; and the pair
https://www.youtube.com/watch?v=XYZ versus
youtube.com/watch?v=XYZ&feature=share is matched. -/
theorem C6_url_matching_amended :
    (∀ p1 w1 s1 q1 p2 w2 s2 q2 core : Str, ∀ (bm : Bookmark) (bms : List Bookmark),
      ProtoPart p1 → WwwPart w1 → SlashPart s1 → QueryPart q1 →
      ProtoPart p2 → WwwPart w2 → SlashPart s2 → QueryPart q2 →
      q1.any isLineTerm = false → q2.any isLineTerm = false →
      CoreOk core →
      (q1 = [] ∨ s1 = []) → (q2 = [] ∨ s2 = []) →
      bm ∈ bms → bm.link = p2 ++ (w2 ++ (core ++ (s2 ++ q2))) →
      (findMatchingBookmark (p1 ++ (w1 ++ (core ++ (s1 ++ q1)))) bms).isSome = true) ∧
    (∀ (url : Str) (bms : List Bookmark) (bm : Bookmark) (v : Str), bm ∈ bms →
      tuExtractVideoId url = some v → tuExtractVideoId bm.link = some v →
      (findMatchingBookmark url bms).isSome = true) ∧
    findMatchingBookmark ytRecordUrl [ytBookmark] = some ytBookmark := by
  have hnormCore : ∀ p w s q core : Str,
      ProtoPart p → WwwPart w → SlashPart s → QueryPart q →
      q.any isLineTerm = false → CoreOk core →
      (q = [] ∨ s = []) →
      normalizeUrl (p ++ (w ++ (core ++ (s ++ q)))) = core := by
    intro p w s q core hp hw hs hq hqnl hcore hqs
    rw [normalizeUrl_decomp p w core s q hp hw hs hq hqnl hcore]
    rcases hqs with rfl | rfl
    · rw [if_pos rfl]
    · rcases hq with rfl | ⟨t, rfl⟩
      · rw [if_pos rfl]
      · rw [if_neg (by simp), List.append_nil]
  refine ⟨?_, ?_, by decide⟩
  · intro p1 w1 s1 q1 p2 w2 s2 q2 core bm bms hp1 hw1 hs1 hq1 hp2 hw2 hs2 hq2
      hqnl1 hqnl2 hcore hqs1 hqs2 hmem hlink
    refine findMatchingBookmark_isSome _ bms bm hmem (Or.inl ?_)
    rw [hlink, hnormCore p2 w2 s2 q2 core hp2 hw2 hs2 hq2 hqnl2 hcore hqs2,
      hnormCore p1 w1 s1 q1 core hp1 hw1 hs1 hq1 hqnl1 hcore hqs1]
  · intro url bms bm v hmem hu hb
    refine findMatchingBookmark_isSome _ bms bm hmem (Or.inr ⟨?_, ?_⟩)
    · rw [hu]; rfl
    · rw [hu, hb]

/-- C6 counterexample: the claim as stated fails — the record URL
a.com/p and the bookmark URL a.com/p/?q=1 differ only in a trailing
slash and a query string (both decompositions are exhibited over the
well-behaved shared core a.com/p), both extracted video ids are absent,
yet the matcher finds no match, because normalization keeps the trailing
slash that stands before the query. -/
theorem C6_url_matching_counterexample :
    cexTargetUrl = ([] : Str) ++ ([] ++ (str "a.com/p" ++ ([] ++ ([] : Str)))) ∧
    cexBookmark.link = ([] : Str) ++ ([] ++ (str "a.com/p" ++ (str "/" ++ str "?q=1"))) ∧
    CoreOk (str "a.com/p") ∧
    tuExtractVideoId cexTargetUrl = none ∧
    tuExtractVideoId cexBookmark.link = none ∧
    findMatchingBookmark cexTargetUrl [cexBookmark] = none := by
  refine ⟨by decide, by decide, ?_, by decide, by decide, by decide⟩
  unfold CoreOk
  decide

/-- C6 witness: the structural matching statement applied at the concrete
youtube pair of the claim. -/
theorem C6_url_matching_witness :
    (findMatchingBookmark (str "https://" ++ (str "www." ++ (str "youtube.com/watch" ++
      ([] ++ str "?v=XYZ")))) [ytBookmark]).isSome = true :=
  C6_url_matching_amended.1 (str "https://") (str "www.") [] (str "?v=XYZ")
    [] [] [] (str "?v=XYZ&feature=share") (str "youtube.com/watch") ytBookmark [ytBookmark]
    (Or.inr (Or.inr rfl)) (Or.inr rfl) (Or.inl rfl) (Or.inr ⟨str "v=XYZ", by decide⟩)
    (Or.inl rfl) (Or.inl rfl) (Or.inl rfl) (Or.inr ⟨str "v=XYZ&feature=share", by decide⟩)
    (by decide) (by decide)
    (by unfold CoreOk; decide)
    (Or.inr rfl) (Or.inr rfl) (List.mem_cons_self _ _) (by decide)
